import Mathlib

/-!
Verification of the Schedule-Maker persisted-schedule serialization and
report-generation subsystem.  Strings are modelled as `List Char`; the
Python routines of `utils.py`, `config.py` and `schedule_manager.py` are
translated into executable Lean definitions, and the spec's claims are
settled as theorems about those definitions.
-/

namespace Smaker

abbrev Str := List Char

/-! ## Days and static configuration (config.py) -/

inductive Day where
  | monday | tues | wed | thur | fri | sat | sun
deriving DecidableEq, Repr

def Day.all : List Day := [.monday, .tues, .wed, .thur, .fri, .sat, .sun]

def Day.name : Day → Str
  | .monday => "Monday".data
  | .tues => "Tues".data
  | .wed => "Wed".data
  | .thur => "Thur".data
  | .fri => "Fri".data
  | .sat => "Sat".data
  | .sun => "Sun".data

/-- `DEFAULT_STUDY_TIMES` from config.py. -/
def DEFAULT_STUDY_TIMES : Day → Str
  | .sun => "12:00-2:00".data
  | _ => "11:00-3:00".data

/-- `PLAN_SAVE_SEPARATOR` from config.py. -/
def PLAN_SAVE_SEPARATOR : Str := "||PLANS||".data

/-! ## Data model -/

structure Plan where
  name : Str
  details : Str
deriving DecidableEq, Repr

structure DaySchedule where
  study_time : Str
  goals : Str
  plans : List Plan
deriving DecidableEq, Repr

abbrev WeekSchedule := Day → DaySchedule

/-- `ScheduleManager.initialize_default_schedule`. -/
def initialize_default_schedule : WeekSchedule := fun d =>
  { study_time := DEFAULT_STUDY_TIMES d, goals := [], plans := [] }

/-! ## Sanitizer / validator (utils.py) -/

/-- The character class `[;&<>$`\\\x00-\x1F\x7F]` of `sanitize_input`. -/
def isDangerous (c : Char) : Bool :=
  c = ';' || c = '&' || c = '<' || c = '>' || c = '$' || c = '`' || c = '\\' ||
  c.toNat ≤ 0x1F || c.toNat = 0x7F

/-- `sanitize_input` from utils.py: empty stays empty, the sentinel
`"DIEEEEE"` passes through, any other text has dangerous characters
removed. -/
def sanitize_input (text : Str) : Str :=
  if text = [] then []
  else if text = "DIEEEEE".data then text
  else text.filter (fun c => !(isDangerous c))

/-- Character classes of the email regular expression
`^[a-zA-Z0-9._%+-]+@[a-zA-Z0-9.-]+\.[a-zA-Z]{2,}$`. -/
def localChar (c : Char) : Bool :=
  (c.isUpper || c.isLower) || c.isDigit || c = '.' || c = '_' || c = '%' || c = '+' || c = '-'

def domainChar (c : Char) : Bool :=
  (c.isUpper || c.isLower) || c.isDigit || c = '.' || c = '-'

def alphaChar (c : Char) : Bool := c.isUpper || c.isLower

/-- The part of the email regex after `@`: by backtracking, some dot
position splits the rest into a non-empty run of domain characters and
a final end-anchored run of at least two alphabetic characters. -/
def emailDomainMatch (rest : Str) : Bool :=
  (List.range rest.length).any fun k =>
    decide (1 ≤ k) && decide (rest.getD k ' ' = '.') &&
    (rest.take k).all domainChar &&
    decide (k + 3 ≤ rest.length) &&
    (rest.drop (k + 1)).all alphaChar

/-- An anchored match of the email pattern covering exactly `s`,
rendered as the regex's existential semantics. -/
def emailRegexMatch (s : Str) : Bool :=
  let l := s.takeWhile localChar
  if l = [] then false
  else
    match s.drop l.length with
    | c2 :: rest => if c2 = '@' then emailDomainMatch rest else false
    | [] => false

/-- Python's un-flagged `$` also matches just before one trailing
newline, so `re.match(pattern, s)` with an end-anchored pattern matches
`s` or `s` minus a single final newline; since the pattern's tail
`[a-zA-Z]{2,}` cannot match the newline itself, this is a match of the
string with one trailing newline removed. -/
def dropTrailingNl (s : Str) : Str :=
  if s.getLast? = some '\n' then s.dropLast else s

/-- `is_valid_email` from utils.py: empty is falsy, otherwise the
anchored regex must match (allowing `$` before one trailing newline). -/
def is_valid_email (s : Str) : Bool :=
  if s = [] then false else emailRegexMatch (dropTrailingNl s)

/-- Index of the last occurrence of a character in a string. -/
def lastIdxOf (c : Char) : Str → Option Nat
  | [] => none
  | x :: r =>
      match lastIdxOf c r with
      | some i => some (i + 1)
      | none => if x = c then some 0 else none

/-- The spec's wording of the part after `@`: the final label after the
last dot is two-or-more alphabetic characters, preceded by one-or-more
domain characters. -/
def emailDomainSpec (rest : Str) : Bool :=
  match lastIdxOf '.' rest with
  | none => false
  | some k =>
      decide (1 ≤ k) && (rest.take k).all domainChar &&
      decide (k + 3 ≤ rest.length) && (rest.drop (k + 1)).all alphaChar

/-- The spec's wording of email validity: one-or-more local characters,
`@`, one-or-more domain characters, and the final label after the last
dot is two-or-more alphabetic characters; the empty string is invalid. -/
def isValidEmailSpec (s : Str) : Bool :=
  let l := s.takeWhile localChar
  if l = [] then false
  else
    match s.drop l.length with
    | c2 :: rest => if c2 = '@' then emailDomainSpec rest else false
    | [] => false

/-! ## clean_text (utils.py): ANSI / prompt-label removal -/

/-- Python `str.strip()` whitespace: exactly the characters for which
`str.isspace()` holds (ASCII whitespace, the file/group/record/unit
separators 0x1C-0x1F, NEL 0x85, NBSP 0xA0, and the Unicode space
characters U+1680, U+2000-U+200A, U+2028, U+2029, U+202F, U+205F,
U+3000). -/
def isPySpace (c : Char) : Bool :=
  let n := c.toNat
  (0x09 ≤ n && n ≤ 0x0D) || n = 0x20 || (0x1C ≤ n && n ≤ 0x1F) ||
  n = 0x85 || n = 0xA0 || n = 0x1680 || (0x2000 ≤ n && n ≤ 0x200A) ||
  n = 0x2028 || n = 0x2029 || n = 0x202F || n = 0x205F || n = 0x3000

def pyStrip (s : Str) : Str :=
  ((s.dropWhile isPySpace).reverse.dropWhile isPySpace).reverse

def isAnsiParam (c : Char) : Bool := c.isDigit || c = ';'

/-- Length of a match of `\x1B\[[0-9;]*[JKmsu]` at the head of `s`. -/
def matchAnsi1 (s : Str) : Option Nat :=
  match s with
  | '\x1b' :: '[' :: r =>
      let n := (r.takeWhile isAnsiParam).length
      match r.drop n with
      | c :: _ =>
          if c = 'J' || c = 'K' || c = 'm' || c = 's' || c = 'u' then some (2 + n + 1) else none
      | [] => none
  | _ => none

/-- Length of a match of `\[[0-9;]*m` at the head of `s`. -/
def matchAnsi2 (s : Str) : Option Nat :=
  match s with
  | '[' :: r =>
      let n := (r.takeWhile isAnsiParam).length
      match r.drop n with
      | c :: _ => if c = 'm' then some (1 + n + 1) else none
      | [] => none
  | _ => none

/-- First index of a character in a string. -/
def firstIdxOf (c : Char) : Str → Option Nat
  | [] => none
  | x :: r => if x = c then some 0 else (firstIdxOf c r).map (· + 1)

/-- Length of a match of `<pfx>[^:]*:` at the head of `s`
(prefix literal, then everything up to and including the first colon). -/
def matchUptoColon (pfx : Str) (s : Str) : Option Nat :=
  if pfx.isPrefixOf s then
    match firstIdxOf ':' (s.drop pfx.length) with
    | some i => some (pfx.length + i + 1)
    | none => none
  else none

/-- Length of a match of
`Enter specific study goals for [^(]*\(press Enter for none\):` at the
head of `s`: the `[^(]*` runs to the first `(`, which must start the
literal tail. -/
def matchGoalsPrompt (s : Str) : Option Nat :=
  let pfx := "Enter specific study goals for ".data
  let tail := "(press Enter for none):".data
  if pfx.isPrefixOf s then
    match firstIdxOf '(' (s.drop pfx.length) with
    | some i =>
        if tail.isPrefixOf ((s.drop pfx.length).drop i) then
          some (pfx.length + i + tail.length)
        else none
    | none => none
  else none

/-- Length of a match of `Add another plan for .* \(y/n\):` at the head
of `s`: greedy `.*` stays on the line, so the literal ` (y/n):` is taken
at the largest newline-free offset where it occurs. -/
def matchAddPlanPrompt (s : Str) : Option Nat :=
  let pfx := "Add another plan for ".data
  let tail := " (y/n):".data
  if pfx.isPrefixOf s then
    let r := s.drop pfx.length
    let limit := (r.takeWhile (· ≠ '\n')).length
    match (List.range (limit + 1)).reverse.find? (fun j => tail.isPrefixOf (r.drop j)) with
    | some j => some (pfx.length + j + tail.length)
    | none => none
  else none

/-- Length of a match of a fixed literal at the head of `s`. -/
def matchLit (lit : Str) (s : Str) : Option Nat :=
  if lit.isPrefixOf s then some lit.length else none

/-- Scanning worker for `reSub`; the fuel is an upper bound on the
number of scan steps and is initialized to the string length, so it
never runs out. -/
def reSubAux (m : Str → Option Nat) : Nat → Str → Str
  | 0, s => s
  | _ + 1, [] => []
  | fuel + 1, c :: r =>
      match m (c :: r) with
      | some (n + 1) => reSubAux m fuel (r.drop n)
      | _ => c :: reSubAux m fuel r

/-- `re.sub(pattern, '', text)` for a pattern whose matches never have
length zero: scan left to right, delete each match, continue after it. -/
def reSub (m : Str → Option Nat) (s : Str) : Str := reSubAux m s.length s

/-- `clean_text` from utils.py: the eight substitutions in source order,
then `strip()`. -/
def clean_text (text : Str) : Str :=
  if text = [] then []
  else
    pyStrip <|
      reSub (matchLit "Plan Details (e.g., hours, location):".data) <|
      reSub (matchLit "Plan Name:".data) <|
      reSub matchAddPlanPrompt <|
      reSub (matchUptoColon "Work information for ".data) <|
      reSub matchGoalsPrompt <|
      reSub (matchUptoColon "Study information for ".data) <|
      reSub matchAnsi2 <|
      reSub matchAnsi1 text

/-! ## Shell-style escaping used by save/load (schedule_manager.py) -/

/-- `.replace('\\', '\\\\')` — double every backslash. -/
def escB : Str → Str
  | [] => []
  | c :: r => if c = '\\' then '\\' :: '\\' :: escB r else c :: escB r

/-- `.replace('"', '\\"')` — escape every double quote. -/
def escQ : Str → Str
  | [] => []
  | c :: r => if c = '"' then '\\' :: '"' :: escQ r else c :: escQ r

/-- The shell escaping applied on save: backslashes first, then quotes. -/
def shellEsc (s : Str) : Str := escQ (escB s)

/-- `.replace('\\"', '"')` — left-to-right, non-overlapping. -/
def replQB : Str → Str
  | [] => []
  | [c] => [c]
  | c1 :: c2 :: r =>
      if c1 = '\\' ∧ c2 = '"' then '"' :: replQB r else c1 :: replQB (c2 :: r)

/-- `.replace('\\\\', '\\')` — left-to-right, non-overlapping. -/
def replBB : Str → Str
  | [] => []
  | [c] => [c]
  | c1 :: c2 :: r =>
      if c1 = '\\' ∧ c2 = '\\' then '\\' :: replBB r else c1 :: replBB (c2 :: r)

/-- The unescaping applied on load: quotes first, then backslashes. -/
def unesc (s : Str) : Str := replBB (replQB s)

/-- Python `s.split(sep, 1)`: the part before the first occurrence of
`sep`, and the remainder after it when `sep` occurs. -/
def pySplitOnce (sep : Str) : Str → Str × Option Str
  | [] => if sep.isPrefixOf ([] : Str) then ([], some []) else ([], none)
  | c :: r =>
      if sep.isPrefixOf (c :: r) then ([], some ((c :: r).drop sep.length))
      else
        let p := pySplitOnce sep r
        (c :: p.1, p.2)

/-- Python `s.split(c)` for a single-character separator. -/
def pySplit (c : Char) : Str → List Str
  | [] => [[]]
  | x :: r =>
      if x = c then [] :: pySplit c r
      else
        match pySplit c r with
        | h :: t => (x :: h) :: t
        | [] => [[x]]

/-- Python `a or b` for strings. -/
def pyOr (a b : Str) : Str := if a = [] then b else a

/-- Substring test: does `pat` occur anywhere in `s`? -/
def hasOccur (pat : Str) : Str → Bool
  | [] => pat.isPrefixOf ([] : Str)
  | c :: r => pat.isPrefixOf (c :: r) || hasOccur pat r

/-! ## JSON (the parts of `json.dumps` / `json.loads` the codec uses) -/

/-- Python values produced by `json.loads`.  Numbers keep their source
lexeme (their floating-point value is never needed by the codec). -/
inductive PyVal where
  | str (s : Str)
  | num (lexeme : Str)
  | boolean (b : Bool)
  | nullv
  | list (xs : List PyVal)
  | dict (xs : List (Str × PyVal))

/-- `str(v)` as applied by the loader to `name`/`details` values.  Only
the string case is ever exercised by the theorems below; the remaining
cases follow Python's `str` for scalars and are best-effort for
containers. -/
def pyStr : PyVal → Str
  | .str s => s
  | .num l => l
  | .boolean true => "True".data
  | .boolean false => "False".data
  | .nullv => "None".data
  | .list _ => "[...]".data
  | .dict _ => "\x7b...\x7d".data

/-- Python `dict.get(key, default)`; later duplicate JSON keys override
earlier ones, so the last binding wins. -/
def pyDictGet (xs : List (Str × PyVal)) (key : Str) (dflt : PyVal) : PyVal :=
  match xs.reverse.find? (fun kv => kv.1 = key) with
  | some kv => kv.2
  | none => dflt

/-- JSON escaping of one character by `json.dumps(..., ensure_ascii=False)`. -/
def jsonEscChar (c : Char) : Str :=
  if c = '"' then ['\\', '"']
  else if c = '\\' then ['\\', '\\']
  else if c = '\n' then ['\\', 'n']
  else if c = '\t' then ['\\', 't']
  else if c = '\r' then ['\\', 'r']
  else if c = '\x08' then ['\\', 'b']
  else if c = '\x0c' then ['\\', 'f']
  else if c.toNat < 0x20 then
    ['\\', 'u', '0', '0', Nat.digitChar (c.toNat / 16), Nat.digitChar (c.toNat % 16)]
  else [c]

/-- `json.dumps` of a string. -/
def jsonStr (s : Str) : Str := '"' :: s.flatMap jsonEscChar ++ ['"']

/-- `json.dumps` of one `{'name': ..., 'details': ...}` plan dict
(default separators `', '` and `': '`, insertion order). -/
def planObj (p : Plan) : Str :=
  "\x7b\"name\": ".data ++ jsonStr p.name ++ ", \"details\": ".data ++ jsonStr p.details ++ ['\x7d']

/-- Join with `json.dumps`'s default item separator `", "`. -/
def joinComma : List Str → Str
  | [] => []
  | [x] => x
  | x :: xs => x ++ ", ".data ++ joinComma xs

/-- `json.dumps` of the plan list. -/
def plansJson (ps : List Plan) : Str :=
  '[' :: joinComma (ps.map planObj) ++ [']']

def isJsonWs (c : Char) : Bool := c = ' ' || c = '\t' || c = '\n' || c = '\r'

def skipWs (s : Str) : Str := s.dropWhile isJsonWs

def hexVal (c : Char) : Option Nat :=
  let n := c.toNat
  if 48 ≤ n ∧ n ≤ 57 then some (n - 48)
  else if 97 ≤ n ∧ n ≤ 102 then some (n - 87)
  else if 65 ≤ n ∧ n ≤ 70 then some (n - 55)
  else none

/-- Decode one backslash escape of a JSON string literal (the characters
it denotes, and the remaining input); surrogate pairs from `\uXXXX`
escapes are combined as `json.loads` does. -/
def unescapeOne : Str → Option (Str × Str)
  | [] => none
  | e :: r =>
      match e with
      | '"' => some (['"'], r)
      | '\\' => some (['\\'], r)
      | '/' => some (['/'], r)
      | 'b' => some (['\x08'], r)
      | 'f' => some (['\x0c'], r)
      | 'n' => some (['\n'], r)
      | 'r' => some (['\r'], r)
      | 't' => some (['\t'], r)
      | 'u' =>
          match r with
          | h1 :: h2 :: h3 :: h4 :: r2 =>
              match hexVal h1, hexVal h2, hexVal h3, hexVal h4 with
              | some a, some b, some c, some d =>
                  let n := ((a * 16 + b) * 16 + c) * 16 + d
                  if 0xD800 ≤ n ∧ n ≤ 0xDBFF then
                    if r2.take 2 = ['\\', 'u'] then
                      match r2 with
                      | '\\' :: 'u' :: g1 :: g2 :: g3 :: g4 :: r3 =>
                          match hexVal g1, hexVal g2, hexVal g3, hexVal g4 with
                          | some a2, some b2, some c2, some d2 =>
                              let m := ((a2 * 16 + b2) * 16 + c2) * 16 + d2
                              if 0xDC00 ≤ m ∧ m ≤ 0xDFFF then
                                some ([Char.ofNat
                                  (0x10000 + (n - 0xD800) * 0x400 + (m - 0xDC00))], r3)
                              else some ([Char.ofNat n, Char.ofNat m], r3)
                          | _, _, _, _ => none
                      | _ => none
                    else some ([Char.ofNat n], r2)
                  else some ([Char.ofNat n], r2)
              | _, _, _, _ => none
          | _ => none
      | _ => none

/-- Body of a JSON string literal (after its opening quote), with the
standard escapes.  Unescaped control characters are rejected
(`json.loads` is strict).  The fuel is an upper bound on the number of
steps; callers pass the input length plus one, which never runs out
since every step consumes at least one character. -/
def parseStringBody : Nat → Str → Option (Str × Str)
  | 0, _ => none
  | _ + 1, [] => none
  | fuel + 1, c0 :: r0 =>
      if c0 = '"' then some ([], r0)
      else if c0 = '\\' then
        match unescapeOne r0 with
        | none => none
        | some (cs, rest) => (parseStringBody fuel rest).map (fun p => (cs ++ p.1, p.2))
      else if c0.toNat < 0x20 then none
      else (parseStringBody fuel r0).map (fun p => (c0 :: p.1, p.2))

/-- Lexeme of a JSON number at the head of `s` (grammar
`-?(0|[1-9][0-9]*)(\.[0-9]+)?([eE][+-]?[0-9]+)?`). -/
def parseNumLex (s : Str) : Option (Str × Str) :=
  let (sign, s1) := match s with
    | '-' :: r => (['-'], r)
    | _ => (([] : Str), s)
  match s1 with
  | c :: _ =>
      if !c.isDigit then none
      else
        let intPart := if c = '0' then [c] else s1.takeWhile Char.isDigit
        let s2 := s1.drop intPart.length
        let (fracPart, s3) :=
          match s2 with
          | '.' :: r =>
              let ds := r.takeWhile Char.isDigit
              if ds = [] then (([] : Str), s2) else ('.' :: ds, r.drop ds.length)
          | _ => (([] : Str), s2)
        let (expPart, s4) :=
            match s3 with
            | e :: r =>
                if e = 'e' ∨ e = 'E' then
                  let (es, r2) := match r with
                    | '+' :: r2 => (['+'], r2)
                    | '-' :: r2 => (['-'], r2)
                    | _ => (([] : Str), r)
                  let ds := r2.takeWhile Char.isDigit
                  if ds = [] then (([] : Str), s3) else (e :: es ++ ds, r2.drop ds.length)
                else (([] : Str), s3)
            | [] => (([] : Str), s3)
        some (sign ++ intPart ++ fracPart ++ expPart, s4)
  | [] => none

/-- How `json.loads` fails: a syntax error raises `json.JSONDecodeError`
(which the per-day handler of decode catches), while nesting past the
interpreter's recursion limit raises `RecursionError` (which it does
not). -/
inductive JsonErr where
  | decodeErr
  | recursionErr
deriving DecidableEq, Repr

/-- CPython's default recursion limit: the `json` scanner enters one
recursive call per nested container and raises `RecursionError`, not
`JSONDecodeError`, past this depth. -/
def RECURSION_LIMIT : Nat := 1000

/-- `parseStringBody` with the failure lifted to `JSONDecodeError`. -/
def parseStringBodyE (fuel : Nat) (s : Str) : Except JsonErr (Str × Str) :=
  match parseStringBody fuel s with
  | some p => .ok p
  | none => .error .decodeErr

mutual

/-- One JSON value at the head of `s` (fuel-indexed recursive descent;
`json.loads` also accepts `NaN`, `Infinity` and `-Infinity`).  `depth`
counts the containers entered; past `RECURSION_LIMIT` the scanner
raises `RecursionError`.  The fuel only bounds the recursion for the
termination checker; callers pass twice the input length plus two,
which never runs out since every two steps consume a character. -/
def parseVal : Nat → Nat → Str → Except JsonErr (PyVal × Str)
  | 0, _, _ => .error .decodeErr
  | _ + 1, _, [] => .error .decodeErr
  | fuel + 1, depth, c :: r =>
      if c = '"' then (parseStringBodyE (r.length + 1) r).map (fun p => (.str p.1, p.2))
      else if c = '[' then
        if RECURSION_LIMIT ≤ depth + 1 then .error .recursionErr
        else if (skipWs r).head? = some ']' then .ok (.list [], (skipWs r).tail)
        else parseElems fuel (depth + 1) (skipWs r) []
      else if c = '\x7b' then
        if RECURSION_LIMIT ≤ depth + 1 then .error .recursionErr
        else if (skipWs r).head? = some '\x7d' then .ok (.dict [], (skipWs r).tail)
        else parseMembers fuel (depth + 1) (skipWs r) []
      else if c = 't' then
        if "rue".data.isPrefixOf r then .ok (.boolean true, r.drop 3)
        else .error .decodeErr
      else if c = 'f' then
        if "alse".data.isPrefixOf r then .ok (.boolean false, r.drop 4)
        else .error .decodeErr
      else if c = 'n' then
        if "ull".data.isPrefixOf r then .ok (.nullv, r.drop 3) else .error .decodeErr
      else if c = 'N' then
        if "aN".data.isPrefixOf r then .ok (.num "NaN".data, r.drop 2)
        else .error .decodeErr
      else if c = 'I' then
        if "nfinity".data.isPrefixOf r then .ok (.num "Infinity".data, r.drop 7)
        else .error .decodeErr
      else if c = '-' ∧ "Infinity".data.isPrefixOf r then
        .ok (.num "-Infinity".data, r.drop 8)
      else
        match parseNumLex (c :: r) with
        | some p => .ok (.num p.1, p.2)
        | none => .error .decodeErr

/-- Comma-separated array elements up to the closing bracket. -/
def parseElems : Nat → Nat → Str → List PyVal → Except JsonErr (PyVal × Str)
  | 0, _, _, _ => .error .decodeErr
  | fuel + 1, depth, s, acc =>
      (parseVal fuel depth s).bind fun vr =>
        if (skipWs vr.2).head? = some ',' then
          parseElems fuel depth (skipWs (skipWs vr.2).tail) (acc ++ [vr.1])
        else if (skipWs vr.2).head? = some ']' then
          .ok (.list (acc ++ [vr.1]), (skipWs vr.2).tail)
        else .error .decodeErr

/-- Comma-separated object members up to the closing brace. -/
def parseMembers : Nat → Nat → Str → List (Str × PyVal) → Except JsonErr (PyVal × Str)
  | 0, _, _, _ => .error .decodeErr
  | fuel + 1, depth, s, acc =>
      if s.head? = some '"' then
        (parseStringBodyE (s.tail.length + 1) s.tail).bind fun kr =>
          if (skipWs kr.2).head? = some ':' then
            (parseVal fuel depth (skipWs (skipWs kr.2).tail)).bind fun vr =>
              if (skipWs vr.2).head? = some ',' then
                (if (skipWs (skipWs vr.2).tail).head? = some '"' then
                  parseMembers fuel depth (skipWs (skipWs vr.2).tail) (acc ++ [(kr.1, vr.1)])
                 else .error .decodeErr)
              else if (skipWs vr.2).head? = some '\x7d' then
                .ok (.dict (acc ++ [(kr.1, vr.1)]), (skipWs vr.2).tail)
              else .error .decodeErr
          else .error .decodeErr
      else .error .decodeErr

end

/-- `json.loads`: parse one value surrounded by optional whitespace;
trailing data is a `JSONDecodeError`, and the scanner's recursion
failure propagates. -/
def jsonLoads (s : Str) : Except JsonErr PyVal :=
  match parseVal (2 * s.length + 2) 0 (skipWs s) with
  | .ok (v, rest) => if skipWs rest = [] then .ok v else .error .decodeErr
  | .error e => .error e

/-! ## Decode (ScheduleManager.load_schedule_data) -/

/-- The per-item validation loop of the JSON plans branch: keep only
dict items whose `name` is non-empty after sanitization, re-sanitizing
`name` and `details`. -/
def validatePlans : List PyVal → List Plan
  | [] => []
  | .dict es :: rest =>
      let plan_name := sanitize_input (pyStr (pyDictGet es "name".data (.str [])))
      let plan_details := sanitize_input (pyStr (pyDictGet es "details".data (.str [])))
      if plan_name ≠ [] then
        { name := plan_name, details := plan_details } :: validatePlans rest
      else validatePlans rest
  | _ :: rest => validatePlans rest

/-- The legacy 7-field fallback of decode (the `else` of `if json_part:`):
`study_time|dg_work|dg_hours|jj_work|jj_hours|goals|notes`, synthesizing
the fixed-label plans; with fewer than 7 fields, no plans. -/
def legacyDay (day : Day) (legacy_data : List Str) : DaySchedule :=
  let study_time0 := clean_text (legacy_data.getD 0 [])
  let study_time :=
    if study_time0 = [] ∨ hasOccur "information".data study_time0 then
      DEFAULT_STUDY_TIMES day
    else study_time0
  let goals0 :=
    if 2 ≤ legacy_data.length then pyOr (clean_text (legacy_data.getD 1 [])) [] else []
  if 7 ≤ legacy_data.length then
    let goals1 := pyOr (clean_text (legacy_data.getD 5 [])) []
    let dg_work :=
      if legacy_data.getD 1 [] = "yes".data ∨ legacy_data.getD 1 [] = "no".data then
        legacy_data.getD 1 []
      else "no".data
    let dg_hours := clean_text (legacy_data.getD 2 [])
    let jj_work :=
      if legacy_data.getD 3 [] = "yes".data ∨ legacy_data.getD 3 [] = "no".data then
        legacy_data.getD 3 []
      else "no".data
    let jj_hours := clean_text (legacy_data.getD 4 [])
    let day_notes := clean_text (legacy_data.getD 6 [])
    let plans1 :=
      (if dg_work = "yes".data then [{ name := "Dollar General".data, details := dg_hours }]
       else []) ++
      (if jj_work = "yes".data then [{ name := "JJ Pizza".data, details := jj_hours }]
       else []) ++
      (if day_notes ≠ [] then [{ name := "Note".data, details := day_notes }] else [])
    { study_time := study_time, goals := goals1, plans := plans1 }
  else { study_time := study_time, goals := goals0, plans := [] }

/-- Decode one day's captured record content (the body of
`schedule[Day]="..."`): split once on the separator, unescape and parse
the legacy `study_time|goals` fields, then either parse the JSON plans
segment (when it is present and non-empty - `if json_part:` is falsy
both for `None` and for the empty string) or fall back to the legacy
7-field format.  A `JSONDecodeError` is caught per day and yields an
empty plans list for the day; any other error from `json.loads` (a
`RecursionError`) escapes to the caller's whole-file handler, so the
result is an `Except`. -/
def parseDayDataE (day : Day) (data_str : Str) : Except Unit DaySchedule :=
  let parts := pySplitOnce PLAN_SAVE_SEPARATOR data_str
  let legacy_data := pySplit '|' (unesc parts.1)
  let study_time0 := clean_text (legacy_data.getD 0 [])
  let study_time :=
    if study_time0 = [] ∨ hasOccur "information".data study_time0 then
      DEFAULT_STUDY_TIMES day
    else study_time0
  let goals0 :=
    if 2 ≤ legacy_data.length then pyOr (clean_text (legacy_data.getD 1 [])) [] else []
  match parts.2 with
  | some json_part =>
      if json_part ≠ [] then
        let json_part_cleaned := pyStrip (unesc json_part)
        if json_part_cleaned = [] then
          .ok { study_time := study_time, goals := goals0, plans := [] }
        else
          match jsonLoads json_part_cleaned with
          | .ok (.list xs) =>
              .ok { study_time := study_time, goals := goals0, plans := validatePlans xs }
          | .ok _ => .ok { study_time := study_time, goals := goals0, plans := [] }
          | .error .decodeErr =>
              .ok { study_time := study_time, goals := goals0, plans := [] }
          | .error .recursionErr => .error ()
      else .ok (legacyDay day legacy_data)
  | none => .ok (legacyDay day legacy_data)

/-- The capturing group `((?:[^"\\]|\\.)*)` followed by a closing `"`:
characters other than quote and backslash, or a backslash plus any
character, ending at the first unescaped quote. -/
def captureQuoted : Str → Option Str
  | [] => none
  | c :: rest =>
      if c = '"' then some []
      else if c = '\\' then
        match rest with
        | [] => none
        | c2 :: r2 => (captureQuoted r2).map (fun t => '\\' :: c2 :: t)
      else (captureQuoted rest).map (fun t => c :: t)

/-- `re.search` for `<pref>((?:[^"\\]|\\.)*)"`: the capture of the
leftmost position where the whole pattern matches. -/
def findCapture (pref : Str) : Str → Option Str
  | [] => none
  | c :: r =>
      if pref.isPrefixOf (c :: r) then
        match captureQuoted ((c :: r).drop pref.length) with
        | some t => some t
        | none => findCapture pref r
      else findCapture pref r

/-- The literal part `schedule[<Day>]` of the day-line pattern. -/
def dayKey (d : Day) : Str := "schedule[".data ++ Day.name d ++ [']']

/-- The literal prefix `schedule[<Day>]="` of the day-line pattern. -/
def dayPrefix (d : Day) : Str := dayKey d ++ ['=', '"']

/-- Does the per-day parse of this day's captured content (if any)
return without an escaping exception? -/
def dayParseOk (content : Str) (d : Day) : Bool :=
  match findCapture (dayPrefix d) content with
  | some data_str => (parseDayDataE d data_str).isOk
  | none => true

/-- `ScheduleManager.load_schedule_data`, with the persisted file
modelled as `none` (file absent) or `some content`.  Days whose pattern
is found are parsed; days without a match keep their defaults; if no
day matches at all, or if any matched day's parse raises out of its
per-day handling (a `RecursionError` from `json.loads`, reaching the
whole-file `except Exception`), the whole schedule falls back to
defaults. -/
def load_schedule_data (content? : Option Str) : WeekSchedule :=
  match content? with
  | none => initialize_default_schedule
  | some content =>
      if Day.all.any (fun d => (findCapture (dayPrefix d) content).isSome) then
        if Day.all.all (dayParseOk content) then
          fun d =>
            match findCapture (dayPrefix d) content with
            | some data_str =>
                match parseDayDataE d data_str with
                | .ok dd => dd
                | .error _ => initialize_default_schedule d
            | none => initialize_default_schedule d
        else initialize_default_schedule
      else initialize_default_schedule

/-! ## Encode (ScheduleManager.save_schedule_data) -/

/-- The save-side plan filter: keep plans whose sanitized name is
non-empty, re-sanitizing `name` and `details`. -/
def validPlansOf : List Plan → List Plan
  | [] => []
  | p :: rest =>
      let n := sanitize_input p.name
      let d := sanitize_input p.details
      if n ≠ [] then { name := n, details := d } :: validPlansOf rest
      else validPlansOf rest

/-- The raw (pre-escaping, pre-separator) content written for one day:
`<study_time>|<goals><SEP><plans_json>` with shell escaping applied to
each piece. -/
def combinedData (dd : DaySchedule) : Str :=
  shellEsc (sanitize_input dd.study_time) ++ '|' :: shellEsc (sanitize_input dd.goals) ++
    PLAN_SAVE_SEPARATOR ++ shellEsc (plansJson (validPlansOf dd.plans))

/-- One written line `schedule[<Day>]="<combined>"\n`. -/
def encodeDayLine (d : Day) (dd : DaySchedule) : Str :=
  dayPrefix d ++ combinedData dd ++ ['"', '\n']

/-- The static preamble written before the day lines. -/
def savePreamble (date : Str) : Str :=
  "# Schedule data saved on ".data ++ date ++ ['\n'] ++ "days=(\n".data ++
    (Day.all.flatMap (fun d => "  \"".data ++ Day.name d ++ ['"', '\n'])) ++
    ")\n\n".data ++ "declare -A schedule\n".data

/-- The full text written by `save_schedule_data`. -/
def saveFileContent (date : Str) (w : WeekSchedule) : Str :=
  savePreamble date ++ Day.all.flatMap (fun d => encodeDayLine d (w d))

/-- Which I/O steps of `save_schedule_data` raise in a given run. -/
structure SaveEnv where
  mkdir_fails : Bool
  backup_fails : Bool
  write_fails : Bool
  chmod_fails : Bool

/-- The manager state that `save_schedule_data` may mutate. -/
structure ManagerState where
  schedule : WeekSchedule

/-- `ScheduleManager.save_schedule_data` as a state transition: directory
setup or write failures reach the outer handler and return `False`
without touching `self.schedule`; backup and chmod failures are caught
by their inner handlers; on success the written content is produced and
`self.schedule` is updated last. -/
def save_schedule_data (env : SaveEnv) (date : Str) (st : ManagerState)
    (sched : WeekSchedule) : Bool × ManagerState × Option Str :=
  if env.mkdir_fails then (false, st, none)
  else if env.write_fails then (false, st, none)
  else (true, { schedule := sched }, some (saveFileContent date sched))

/-! ## Week summary statistics (ScheduleManager.generate_text_schedule) -/

/-- `re.match(r'(\d+):(\d+)-(\d+):(\d+)', s)`: the four numeric groups
at the start of the string (arbitrary trailing text allowed). -/
def matchTimeRange (s : Str) : Option (Nat × Nat × Nat × Nat) :=
  let g1 := s.takeWhile Char.isDigit
  let s1 := s.drop g1.length
  match g1, s1 with
  | [], _ => none
  | _, ':' :: s2 =>
      let g2 := s2.takeWhile Char.isDigit
      let s3 := s2.drop g2.length
      match g2, s3 with
      | [], _ => none
      | _, '-' :: s4 =>
          let g3 := s4.takeWhile Char.isDigit
          let s5 := s4.drop g3.length
          match g3, s5 with
          | [], _ => none
          | _, ':' :: s6 =>
              let g4 := s6.takeWhile Char.isDigit
              match g4 with
              | [] => none
              | _ => some (g1.foldl (fun a c => a * 10 + (c.toNat - '0'.toNat)) 0,
                           g2.foldl (fun a c => a * 10 + (c.toNat - '0'.toNat)) 0,
                           g3.foldl (fun a c => a * 10 + (c.toNat - '0'.toNat)) 0,
                           g4.foldl (fun a c => a * 10 + (c.toNat - '0'.toNat)) 0)
          | _, _ => none
      | _, _ => none
  | _, _ => none

/-- Study hours contributed by one `study_time` string: zero when empty
or unparsable, otherwise the end-minus-start span in decimal hours with
12 added to the end hour when it is numerically below the start hour. -/
def studyHoursOf (study_time : Str) : ℚ :=
  if study_time = [] then 0
  else
    match matchTimeRange study_time with
    | none => 0
    | some (sh, sm, eh, em) =>
        let eh' : ℚ := if eh < sh then (eh : ℚ) + 12 else (eh : ℚ)
        (eh' + (em : ℚ) / 60) - ((sh : ℚ) + (sm : ℚ) / 60)

/-- Plans counted by the summary: those whose details are non-empty
after `strip()`. -/
def visiblePlanCount (ps : List Plan) : Nat :=
  (ps.filter (fun p => pyStrip p.details ≠ [])).length

/-- The week-summary loop of `generate_text_schedule` (lines 693-727):
total study hours, total visible plans, days with non-empty goals. -/
def weekSummary (w : WeekSchedule) : ℚ × Nat × Nat :=
  Day.all.foldl
    (fun acc d =>
      (acc.1 + studyHoursOf (w d).study_time,
       acc.2.1 + visiblePlanCount (w d).plans,
       acc.2.2 + if (w d).goals ≠ [] then 1 else 0))
    (0, 0, 0)

/-- The existential reading shared by both email-domain checkers. -/
def EmailTailShape (rest : Str) : Prop :=
  ∃ a b : Str, rest = a ++ '.' :: b ∧ a ≠ [] ∧ a.all domainChar = true ∧
    2 ≤ b.length ∧ b.all alphaChar = true

/-- Well-escaped content: a sequence of ordinary characters (neither
quote nor backslash) and backslash-escaped pairs.  Every quote is the
second character of a pair, so a regex capture tolerant of `\\.` runs
to the first quote after the content. -/
inductive Esc : Str → Prop
  | nil : Esc []
  | chr {c : Char} (h1 : c ≠ '"') (h2 : c ≠ '\\') {s : Str} : Esc s → Esc (c :: s)
  | pair (c : Char) {s : Str} : Esc s → Esc ('\\' :: c :: s)

/-- Some nonempty proper prefix of `pref` is a suffix of `x`, i.e. an
occurrence of `pref` could start inside `x` and continue past its end. -/
def boundaryBad (pref x : Str) : Bool :=
  (List.range pref.length).any fun k => decide (k ≠ 0) && (pref.take k).isSuffixOf x

/-- The Python value `json.loads` produces for one saved plan dict. -/
def planVal (p : Plan) : PyVal :=
  .dict [("name".data, .str p.name), ("details".data, .str p.details)]

/-- The day fields for which the save/load pipeline is lossless: already
sanitized and `clean_text`-stable, pipe-free, with a non-empty
`study_time` not containing `information`, and plans with sanitized,
non-empty names and sanitized details. -/
def GoodDayB (dd : DaySchedule) : Bool :=
  (sanitize_input dd.study_time == dd.study_time) &&
  (clean_text dd.study_time == dd.study_time) &&
  !(dd.study_time == []) &&
  !(hasOccur "information".data dd.study_time) &&
  !(dd.study_time.contains '|') &&
  (sanitize_input dd.goals == dd.goals) &&
  (clean_text dd.goals == dd.goals) &&
  !(dd.goals.contains '|') &&
  dd.plans.all (fun p =>
    (sanitize_input p.name == p.name) && !(p.name == []) &&
    (sanitize_input p.details == p.details))

/-- The shape `strftime("%Y-%m-%d")` guarantees for the date written
into the file preamble. -/
def dateOkB (date : Str) : Bool := date.all (fun c => c.isDigit || c = '-')

/-- A WeekSchedule with sanitized fields on which the round-trip claim
fails: Monday's goals contain a pipe. -/
def wPipeEx : WeekSchedule := fun d =>
  if d = Day.monday then
    { study_time := "t".data, goals := "a|b".data, plans := [] }
  else { study_time := "t".data, goals := [], plans := [] }

def htmlH1 : Str := "<!DOCTYPE html>\n    <html lang=\"en\">\n    <head>\n        <meta charset=\"UTF-8\">\n        <meta name=\"viewport\" content=\"width=device-width, initial-scale=1.0\">\n        <title>Weekly Schedule - ".data
def htmlH2 : Str := "</title>\n        <!--[if mso]>\n        <noscript>\n            <xml>\n                <o:OfficeDocumentSettings>\n                    <o:PixelsPerInch>96</o:PixelsPerInch>\n                </o:OfficeDocumentSettings>\n            </xml>\n        </noscript>\n        <![endif]-->\n        <style type=\"text/css\">\n            /* Reset styles */\n            body, table, td, a \x7b text-size-adjust: 100%; -webkit-text-size-adjust: 100%; -ms-text-size-adjust: 100%; \x7d\n            table, td \x7b mso-table-lspace: 0pt; mso-table-rspace: 0pt; \x7d\n            img \x7b border: 0; line-height: 100%; outline: none; text-decoration: none; -ms-interpolation-mode: bicubic; \x7d\n            \n            /* Remove default styling */\n            body \x7b margin: 0; padding: 0; width: 100% !important; min-width: 100%; \x7d\n            \n            /* Email client specific styles */\n            .ReadMsgBody \x7b width: 100%; \x7d\n            .ExternalClass \x7b width: 100%; \x7d\n            .ExternalClass, .ExternalClass p, .ExternalClass span, .ExternalClass font, .ExternalClass td, .ExternalClass div \x7b line-height: 100%; \x7d\n            \n            /* Outlook specific */\n            table \x7b border-collapse: collapse !important; \x7d\n            \n            /* Mobile styles */\n            @media screen and (max-width: 600px) \x7b\n                .mobile-hide \x7b display: none !important; \x7d\n                .mobile-center \x7b text-align: center !important; \x7d\n                .container \x7b width: 100% !important; max-width: 100% !important; \x7d\n                .day-column \x7b width: 100% !important; display: block !important; margin-bottom: 20px !important; \x7d\n                .day-table \x7b width: 100% !important; \x7d\n            \x7d\n        </style>\n    </head>\n    <body style=\"margin: 0; padding: 0; background-color: #f6f9fc; font-family: -apple-system, BlinkMacSystemFont, \x27Segoe UI\x27, Roboto, Helvetica, Arial, sans-serif;\">\n        <!-- Wrapper table -->\n        <table cellpadding=\"0\" cellspacing=\"0\" border=\"0\" width=\"100%\" style=\"background-color: #f6f9fc;\">\n            <tr>\n                <td align=\"center\" style=\"padding: 40px 20px;\">\n                    \n                    <!-- Container table -->\n                    <table cellpadding=\"0\" cellspacing=\"0\" border=\"0\" width=\"100%\" class=\"container\" style=\"max-width: 800px; background-color: #ffffff; border-radius: 8px; box-shadow: 0 4px 6px rgba(0, 0, 0, 0.07);\">\n                        \n                        <!-- Header -->\n                        <tr>\n                            <td style=\"padding: 40px 30px; text-align: center; background-color: #1a365d; border-radius: 8px 8px 0 0;\">\n                                <h1 style=\"margin: 0; color: #ffffff; font-size: 28px; font-weight: 700; line-height: 1.2;\">My Weekly Schedule</h1>\n                                <p style=\"margin: 10px 0 0 0; color: #e2e8f0; font-size: 16px;\">".data
def htmlH3 : Str := "</p>\n                            </td>\n                        </tr>\n                        \n                        <!-- Schedule Content -->\n                        <tr>\n                            <td style=\"padding: 30px;\">\n                                \n                                <!-- Days Grid -->\n                                <table cellpadding=\"0\" cellspacing=\"0\" border=\"0\" width=\"100%\">\n                                    <tr>\n                                        <td style=\"padding-bottom: 30px;\">\n                                            \n                                            <!-- Mobile responsive: Stack on small screens -->\n                                            <!--[if mso]>\n                                            <table cellpadding=\"0\" cellspacing=\"0\" border=\"0\" width=\"100%\"><tr>\n                                            <![endif]-->\n                                            \n                                            <table cellpadding=\"0\" cellspacing=\"0\" border=\"0\" width=\"100%\" style=\"table-layout: 100%;\">\n    ".data
def cardF1 : Str := "\n                        <td class=\"day-column\" width=\"33%\" valign=\"top\" style=\"padding: 0 5px 15px 5px;\">\n                            <table cellpadding=\"0\" cellspacing=\"0\" border=\"0\" width=\"100%\" class=\"day-table\" style=\"background-color: #ffffff; border: 1px solid #e5e7eb; border-radius: 6px; overflow: hidden;\">\n                                <!-- Day Header -->\n                                <tr>\n                                    <td style=\"background-color: ".data
def cardF2 : Str := "; padding: 12px 15px; text-align: center;\">\n                                        <h3 style=\"margin: 0; color: #ffffff; font-size: 18px; font-weight: 600;\">".data
def cardF3 : Str := "</h3>\n                                    </td>\n                                </tr>\n                                <!-- Day Content -->\n                                <tr>\n                                    <td style=\"padding: 15px;\">\n    ".data
def stF1 : Str := "\n                                        <table cellpadding=\"0\" cellspacing=\"0\" border=\"0\" width=\"100%\" style=\"margin-bottom: 12px;\">\n                                            <tr>\n                                                <td style=\"border-left: 3px solid ".data
def stF2 : Str := "; padding-left: 12px;\">\n                                                    <p style=\"margin: 0 0 4px 0; color: #374151; font-size: 14px; font-weight: 600;\">Study Time</p>\n                                                    <p style=\"margin: 0; color: #6b7280; font-size: 13px;\">".data
def stF3 : Str := "</p>\n                                                </td>\n                                            </tr>\n                                        </table>\n    ".data
def gF1 : Str := "\n                                        <table cellpadding=\"0\" cellspacing=\"0\" border=\"0\" width=\"100%\" style=\"margin-bottom: 12px;\">\n                                            <tr>\n                                                <td style=\"border-left: 3px solid ".data
def gF2 : Str := "; padding-left: 12px;\">\n                                                    <p style=\"margin: 0 0 4px 0; color: #374151; font-size: 14px; font-weight: 600;\">Goals</p>\n                                                    <p style=\"margin: 0; color: #6b7280; font-size: 13px;\">".data
def gF3 : Str := "</p>\n                                                </td>\n                                            </tr>\n                                        </table>\n    ".data
def plF1 : Str := "\n                                        <table cellpadding=\"0\" cellspacing=\"0\" border=\"0\" width=\"100%\" style=\"margin-bottom: 12px;\">\n                                            <tr>\n                                                <td style=\"border-left: 3px solid ".data
def plF2 : Str := "; padding-left: 12px;\">\n                                                    <p style=\"margin: 0 0 4px 0; color: #374151; font-size: 14px; font-weight: 600;\">".data
def plF3 : Str := "</p>\n                                                    <p style=\"margin: 0; color: #6b7280; font-size: 13px;\">".data
def plF4 : Str := "</p>\n                                                </td>\n                                            </tr>\n                                        </table>\n    ".data
def noSchedF : Str := "\n                                        <table cellpadding=\"0\" cellspacing=\"0\" border=\"0\" width=\"100%\">\n                                            <tr>\n                                                <td style=\"padding: 8px 0;\">\n                                                    <p style=\"margin: 0; color: #9ca3af; font-size: 13px; font-style: italic; text-align: center;\">No schedule set</p>\n                                                </td>\n                                            </tr>\n                                        </table>\n    ".data
def cardTailF : Str := "\n                                    </td>\n                                </tr>\n                            </table>\n                        </td>\n    ".data
def trOpenF : Str := "<tr>".data
def trCloseF : Str := "</tr>".data
def emptyCellF : Str := "<td class=\"day-column\" width=\"33%\" style=\"padding: 0 5px;\"></td>".data
def spacingF : Str := "<tr><td colspan=\"3\" style=\"height: 10px;\"></td></tr>".data
def midF : Str := "\n                                            </table>\n                                            \n                                            <!--[if mso]>\n                                            </tr></table>\n                                            <![endif]-->\n                                            \n                                        </td>\n                                    </tr>\n                                </table>\n    ".data
def notesF1 : Str := "\n                                <!-- Notes Section -->\n                                <table cellpadding=\"0\" cellspacing=\"0\" border=\"0\" width=\"100%\" style=\"margin-top: 30px;\">\n                                    <tr>\n                                        <td style=\"background-color: #f9fafb; border: 1px solid #e5e7eb; border-radius: 6px; padding: 20px;\">\n                                            <h3 style=\"margin: 0 0 12px 0; color: #1f2937; font-size: 18px; font-weight: 600;\">Additional Notes</h3>\n                                            <pre style=\"margin: 0; color: #4b5563; font-size: 14px; font-family: -apple-system, BlinkMacSystemFont, \x27Segoe UI\x27, Roboto, Helvetica, Arial, sans-serif; white-space: pre-wrap; word-wrap: break-word;\">".data
def notesF2 : Str := "</pre>\n                                        </td>\n                                    </tr>\n                                </table>\n    ".data
def footF1 : Str := "\n                            </td>\n                        </tr>\n                        \n                        <!-- Footer -->\n                        <tr>\n                            <td style=\"padding: 30px; text-align: center; border-top: 1px solid #e5e7eb;\">\n                                <p style=\"margin: 0; color: #6b7280; font-size: 13px;\">Schedule generated on ".data
def footF2 : Str := "</p>\n                            </td>\n                        </tr>\n                        \n                    </table>\n                    <!-- End Container -->\n                    \n                </td>\n            </tr>\n        </table>\n        <!-- End Wrapper -->\n    </body>\n    </html>\n    ".data

def dayColor : Day → Str
  | .monday => "#3b82f6".data
  | .tues => "#8b5cf6".data
  | .wed => "#10b981".data
  | .thur => "#f59e0b".data
  | .fri => "#ef4444".data
  | .sat => "#6366f1".data
  | .sun => "#ec4899".data

/-- One character of `html.escape` (with `quote=True`). -/
def htmlEscChar (c : Char) : Str :=
  if c = '&' then "&amp;".data
  else if c = '<' then "&lt;".data
  else if c = '>' then "&gt;".data
  else if c = '"' then "&quot;".data
  else if c = Char.ofNat 39 then "&#x27;".data
  else [c]

/-- `html_escaper.escape(s)`: the successive replaces of `&`, `<`, `>`,
`"`, `\x27` act independently, one character at a time. -/
def escapeHtml (s : Str) : Str := s.flatMap htmlEscChar

/-- The plans rendered in a day card: those with non-empty stripped details. -/
def visibleHtmlPlans (ps : List Plan) : List Plan :=
  ps.filter (fun p => !(pyStrip p.details == []))

/-- The string pieces appended for one day card, in order: header with the
day color and name, optional study-time and goals blocks, one block per
visible plan, the `No schedule set` block when nothing is shown, and the
card tail. -/
def dayCardSegs (d : Day) (dd : DaySchedule) : List Str :=
  [cardF1, dayColor d, cardF2, Day.name d, cardF3] ++
  (if dd.study_time ≠ [] then [stF1, dayColor d, stF2, escapeHtml dd.study_time, stF3]
   else []) ++
  (if dd.goals ≠ [] then [gF1, dayColor d, gF2, escapeHtml dd.goals, gF3] else []) ++
  (visibleHtmlPlans dd.plans).flatMap
    (fun p => [plF1, dayColor d, plF2, escapeHtml p.name, plF3,
               escapeHtml p.details, plF4]) ++
  (if dd.study_time = [] ∧ dd.goals = [] ∧ visibleHtmlPlans dd.plans = []
   then [noSchedF] else []) ++
  [cardTailF]

/-- All string pieces concatenated into `html_content`, in order: the
header (with the date twice), three table rows of day cards (3 + 3 + 1
with two empty cells, spacing rows between), the closing chunk, the
optional escaped-notes section, and the footer with the date. -/
def htmlSegments (date : Str) (w : WeekSchedule) (notes : Str) : List Str :=
  [htmlH1, date, htmlH2, date, htmlH3] ++
  [trOpenF] ++ dayCardSegs Day.monday (w Day.monday) ++
    dayCardSegs Day.tues (w Day.tues) ++ dayCardSegs Day.wed (w Day.wed) ++
    [trCloseF, spacingF] ++
  [trOpenF] ++ dayCardSegs Day.thur (w Day.thur) ++ dayCardSegs Day.fri (w Day.fri) ++
    dayCardSegs Day.sat (w Day.sat) ++ [trCloseF, spacingF] ++
  [trOpenF] ++ dayCardSegs Day.sun (w Day.sun) ++ [emptyCellF, emptyCellF] ++
    [trCloseF] ++
  [midF] ++
  (if pyStrip notes ≠ [] then [notesF1, escapeHtml (pyStrip notes), notesF2] else []) ++
  [footF1, date, footF2]

/-- The HTML document `generate_html_email` builds (and returns verbatim
when the external CSS inliner raises). -/
def generate_html_email (date : Str) (w : WeekSchedule) (notes : Str) : Str :=
  (htmlSegments date w notes).flatten

/-! ## Helper lemmas: email validation -/

theorem lastIdxOf_eq_none (c : Char) (s : Str) (h : c ∉ s) : lastIdxOf c s = none := by
  induction s with
  | nil => rfl
  | cons x r ih =>
      simp only [List.mem_cons, not_or] at h
      simp [lastIdxOf, ih h.2, if_neg (Ne.symm h.1)]

theorem lastIdxOf_append_cons (a b : Str) (c : Char) (hb : c ∉ b) :
    lastIdxOf c (a ++ c :: b) = some a.length := by
  induction a with
  | nil => simp [lastIdxOf, lastIdxOf_eq_none c b hb]
  | cons x a' ih => simp [lastIdxOf, ih]

theorem lastIdxOf_lt_length (c : Char) (s : Str) (k : Nat) (h : lastIdxOf c s = some k) :
    k < s.length := by
  induction s generalizing k with
  | nil => simp [lastIdxOf] at h
  | cons x r ih =>
      simp only [lastIdxOf] at h
      rcases h' : lastIdxOf c r with _ | i <;> rw [h'] at h <;> simp at h
      · obtain ⟨-, hk⟩ := h
        simp only [List.length_cons]
        omega
      · have := ih i h'
        simp only [List.length_cons]
        omega

theorem lastIdxOf_decomp (c : Char) (s : Str) (k : Nat) (h : lastIdxOf c s = some k) :
    s = s.take k ++ c :: s.drop (k + 1) := by
  induction s generalizing k with
  | nil => simp [lastIdxOf] at h
  | cons x r ih =>
      simp only [lastIdxOf] at h
      rcases h' : lastIdxOf c r with _ | i <;> rw [h'] at h <;> simp at h
      · obtain ⟨hx, hk⟩ := h
        subst hx
        cases hk
        simp
      · cases h
        simpa using ih i h'

theorem decomp_at (s : Str) (k : Nat) (h : k < s.length) :
    s = s.take k ++ s.getD k ' ' :: s.drop (k + 1) := by
  induction s generalizing k with
  | nil => simp at h
  | cons x r ih =>
      cases k with
      | zero => simp
      | succ k' =>
          simp only [List.length_cons] at h
          simpa [List.getD_cons_succ] using ih k' (by omega)

theorem getD_append_len (a b : Str) (c d : Char) : (a ++ c :: b).getD a.length d = c := by
  induction a with
  | nil => rfl
  | cons x a' ih => simpa using ih

theorem drop_append_len_succ (a b : Str) (c : Char) :
    (a ++ c :: b).drop (a.length + 1) = b := by
  induction a with
  | nil => rfl
  | cons x a' ih => simpa using ih

theorem emailDomainMatch_iff_shape (rest : Str) :
    emailDomainMatch rest = true ↔ EmailTailShape rest := by
  constructor
  · intro h
    simp only [emailDomainMatch, List.any_eq_true, List.mem_range] at h
    obtain ⟨k, hk, hc⟩ := h
    simp only [Bool.and_eq_true, decide_eq_true_eq] at hc
    obtain ⟨⟨⟨⟨h1, h2⟩, h3⟩, h4⟩, h5⟩ := hc
    refine ⟨rest.take k, rest.drop (k + 1), ?_, ?_, h3, ?_, h5⟩
    · conv_lhs => rw [decomp_at rest k hk]
      rw [h2]
    · have hlen : (rest.take k).length = k := by rw [List.length_take]; omega
      intro hnil
      rw [hnil] at hlen
      simp at hlen
      omega
    · rw [List.length_drop]; omega
  · rintro ⟨a, b, rfl, ha, hall, hb, hba⟩
    simp only [emailDomainMatch, List.any_eq_true, List.mem_range]
    refine ⟨a.length, ?_, ?_⟩
    · simp only [List.length_append, List.length_cons]; omega
    · have hane : 1 ≤ a.length := by
        cases a with
        | nil => exact absurd rfl ha
        | cons _ _ => simp
      simp only [Bool.and_eq_true, decide_eq_true_eq]
      refine ⟨⟨⟨⟨hane, getD_append_len a b '.' ' '⟩, ?_⟩, ?_⟩, ?_⟩
      · rw [List.take_left]; exact hall
      · simp only [List.length_append, List.length_cons]; omega
      · rw [drop_append_len_succ]; exact hba

theorem emailDomainSpec_iff_shape (rest : Str) :
    emailDomainSpec rest = true ↔ EmailTailShape rest := by
  constructor
  · intro h
    simp only [emailDomainSpec] at h
    rcases hL : lastIdxOf '.' rest with _ | k <;> rw [hL] at h
    · simp at h
    · simp only [Bool.and_eq_true, decide_eq_true_eq] at h
      obtain ⟨⟨⟨h1, h2⟩, h3⟩, h4⟩ := h
      have hk := lastIdxOf_lt_length '.' rest k hL
      refine ⟨rest.take k, rest.drop (k + 1), lastIdxOf_decomp '.' rest k hL, ?_, h2, ?_, h4⟩
      · have hlen : (rest.take k).length = k := by rw [List.length_take]; omega
        intro hnil
        rw [hnil] at hlen
        simp at hlen
        omega
      · rw [List.length_drop]; omega
  · rintro ⟨a, b, rfl, ha, hall, hb, hba⟩
    have hdot : '.' ∉ b := by
      intro hmem
      have := List.all_eq_true.mp hba '.' hmem
      simp [alphaChar, Char.isUpper, Char.isLower] at this
    simp only [emailDomainSpec, lastIdxOf_append_cons a b '.' hdot]
    have hane : 1 ≤ a.length := by
      cases a with
      | nil => exact absurd rfl ha
      | cons _ _ => simp
    simp only [Bool.and_eq_true, decide_eq_true_eq]
    refine ⟨⟨⟨hane, ?_⟩, ?_⟩, ?_⟩
    · rw [List.take_left]; exact hall
    · simp only [List.length_append, List.length_cons]; omega
    · rw [drop_append_len_succ]; exact hba

theorem emailDomain_eq (rest : Str) : emailDomainMatch rest = emailDomainSpec rest := by
  rcases hs : emailDomainSpec rest with _ | _
  · rcases hm : emailDomainMatch rest with _ | _
    · rfl
    · exact absurd ((emailDomainSpec_iff_shape rest).mpr
        ((emailDomainMatch_iff_shape rest).mp hm)) (by simp [hs])
  · exact (emailDomainMatch_iff_shape rest).mpr ((emailDomainSpec_iff_shape rest).mp hs)

/-! ## Claim theorems: C3 and C8 -/

/-- Claim C3, counterexample: the claim asserts that `sanitize` removes
every occurrence of the comma character, but the source character class
`[;&<>$`\\\x00-\x1F\x7F]` contains no comma, so `sanitize_input ","`
returns the comma unchanged instead of the empty string. -/
theorem claim_C3_counterexample :
    sanitize_input [','] = [','] ∧ ([','] : Str) ≠ [] := by
  constructor
  · rfl
  · simp

/-- Claim C3, amended: for every input string, `sanitize_input` returns
the string with every occurrence of the characters in
`{; & < > $ ` \}` and every control character 0x00-0x1F and 0x7F
removed — the comma is NOT removed — except that the literal
7-character sentinel input `"DIEEEEE"` is returned unmodified, and no
other character is removed or altered. -/
theorem claim_C3 :
    ∀ s : Str,
      sanitize_input s =
        if s = "DIEEEEE".data then s
        else
          s.filter fun c =>
            !(c = ';' || c = '&' || c = '<' || c = '>' || c = '$' || c = '`' || c = '\\' ||
              decide (c.toNat ≤ 0x1F) || decide (c.toNat = 0x7F)) := by
  intro s
  by_cases h0 : s = []
  · subst h0; simp [sanitize_input]
  · by_cases h1 : s = "DIEEEEE".data
    · subst h1; rfl
    · simp only [sanitize_input, if_neg h0, if_neg h1, isDangerous]

/-- Claim C8 (corrected): `is_valid_email` is true exactly when the
string, after removing one trailing newline if present (Python's
un-flagged `$` matches there), is one-or-more characters of
`[A-Za-z0-9._%+-]`, then `@`, then one-or-more characters of
`[A-Za-z0-9.-]`, then a final label after the last dot of two-or-more
alphabetic characters; the empty string is invalid.  On the string
itself the shape equivalence fails: see the counterexample. -/
theorem claim_C8 :
    (∀ s : Str, is_valid_email s = isValidEmailSpec (dropTrailingNl s)) ∧
    is_valid_email [] = false := by
  have hcore : ∀ t : Str, emailRegexMatch t = isValidEmailSpec t := by
    intro t
    simp only [emailRegexMatch, isValidEmailSpec]
    by_cases hl : t.takeWhile localChar = []
    · simp [hl]
    · simp only [if_neg hl]
      rcases t.drop (t.takeWhile localChar).length with _ | ⟨c2, rest⟩
      · rfl
      · by_cases hc2 : c2 = '@'
        · simp only [if_pos hc2]
          exact emailDomain_eq rest
        · simp only [if_neg hc2]
  refine ⟨fun s => ?_, rfl⟩
  by_cases hs : s = []
  · subst hs
    rfl
  · simp only [is_valid_email, if_neg hs]
    exact hcore _

/-- Claim C8, original form refuted: Python's `$` matches before a
trailing newline, so the program accepts `"a@b.co\n"`, which does not
have the claim's shape. -/
theorem claim_C8_counterexample :
    is_valid_email "a@b.co\n".data = true ∧
    isValidEmailSpec "a@b.co\n".data = false := by
  exact ⟨by decide, by decide⟩

/-! ## Claim theorems: C2 (missing-file defaults) and C10 (save atomicity) -/

/-- Claim C2: decode is a total function of the (optional) file content;
when the persisted file does not exist it returns the default
WeekSchedule, in which every day's plans list is empty, goals is empty,
and study_time is the per-day entry of the static default table. -/
theorem claim_C2 :
    load_schedule_data none = initialize_default_schedule ∧
    ∀ d : Day, (load_schedule_data none d).plans = [] ∧
      (load_schedule_data none d).goals = [] ∧
      (load_schedule_data none d).study_time = DEFAULT_STUDY_TIMES d :=
  ⟨rfl, fun _ => ⟨rfl, rfl, rfl⟩⟩

/-- Claim C10: `save_schedule_data` succeeds exactly when neither the
directory setup nor the file write raises (backup and chmod failures
are absorbed by their inner handlers), and the in-memory schedule is
updated exactly on success — on any failure it is left unchanged. -/
theorem claim_C10 :
    ∀ (env : SaveEnv) (date : Str) (st : ManagerState) (sched : WeekSchedule),
      (save_schedule_data env date st sched).1 = (!env.mkdir_fails && !env.write_fails) ∧
      (save_schedule_data env date st sched).2.1 =
        (if (save_schedule_data env date st sched).1 = true then { schedule := sched } else st) := by
  intro env date st sched
  rcases env with ⟨m, b, w, c⟩
  cases m <;> cases w <;> simp [save_schedule_data]

/-! ## Helper lemmas: sanitizer idempotence and plan-name invariants -/

theorem sanitize_filter (s : Str) (h0 : s ≠ []) (h1 : s ≠ "DIEEEEE".data) :
    sanitize_input s = s.filter (fun c => !(isDangerous c)) := by
  simp [sanitize_input, if_neg h0, if_neg h1]

theorem sanitize_idem (s : Str) : sanitize_input (sanitize_input s) = sanitize_input s := by
  by_cases h0 : s = []
  · subst h0; rfl
  · by_cases h1 : s = "DIEEEEE".data
    · subst h1; rfl
    · rw [sanitize_filter s h0 h1]
      set y := s.filter (fun c => !(isDangerous c)) with hy
      by_cases hy0 : y = []
      · rw [hy0]; rfl
      · by_cases hy1 : y = "DIEEEEE".data
        · rw [hy1]; rfl
        · rw [sanitize_filter y hy0 hy1, hy, List.filter_filter]
          simp

theorem validatePlans_names (xs : List PyVal) (p : Plan) (hp : p ∈ validatePlans xs) :
    sanitize_input p.name ≠ [] := by
  induction xs with
  | nil => simp [validatePlans] at hp
  | cons item rest ih =>
      rcases item with s | l | b | _ | elems | es
      · exact ih (by simpa [validatePlans] using hp)
      · exact ih (by simpa [validatePlans] using hp)
      · exact ih (by simpa [validatePlans] using hp)
      · exact ih (by simpa [validatePlans] using hp)
      · exact ih (by simpa [validatePlans] using hp)
      · simp only [validatePlans] at hp
        by_cases hn : sanitize_input (pyStr (pyDictGet es "name".data (.str []))) = []
        · rw [if_neg (not_not_intro hn)] at hp
          exact ih hp
        · rw [if_pos hn] at hp
          rcases List.mem_cons.mp hp with h | h
          · subst h
            simpa [sanitize_idem] using hn
          · exact ih h

theorem validPlansOf_names (ps : List Plan) (p : Plan) (hp : p ∈ validPlansOf ps) :
    sanitize_input p.name ≠ [] := by
  induction ps with
  | nil => simp [validPlansOf] at hp
  | cons q rest ih =>
      simp only [validPlansOf] at hp
      by_cases hn : sanitize_input q.name = []
      · rw [if_neg (not_not_intro hn)] at hp
        exact ih hp
      · rw [if_pos hn] at hp
        rcases List.mem_cons.mp hp with h | h
        · subst h
          simpa [sanitize_idem] using hn
        · exact ih h

theorem mem_ite_singleton {c : Prop} [Decidable c] (p : Plan) (x : Plan)
    (h : p ∈ (if c then [x] else [])) : p = x := by
  split at h
  · exact List.mem_singleton.mp h
  · exact absurd h (List.not_mem_nil p)

theorem legacyDay_names (d : Day) (legacy_data : List Str) (p : Plan)
    (hp : p ∈ (legacyDay d legacy_data).plans) : sanitize_input p.name ≠ [] := by
  simp only [legacyDay] at hp
  split at hp
  · dsimp only at hp
    rcases List.mem_append.mp hp with h | h
    · rcases List.mem_append.mp h with h2 | h2
      · have hpe := mem_ite_singleton p _ h2
        subst hpe
        exact (by decide : sanitize_input "Dollar General".data ≠ [])
      · have hpe := mem_ite_singleton p _ h2
        subst hpe
        exact (by decide : sanitize_input "JJ Pizza".data ≠ [])
    · have hpe := mem_ite_singleton p _ h
      subst hpe
      exact (by decide : sanitize_input "Note".data ≠ [])
  · simp at hp

theorem parseDayDataE_names (d : Day) (data_str : Str) (dd : DaySchedule) (p : Plan)
    (h : parseDayDataE d data_str = .ok dd)
    (hp : p ∈ dd.plans) : sanitize_input p.name ≠ [] := by
  simp only [parseDayDataE] at h
  split at h
  · -- JSON segment present
    split at h
    · -- non-empty segment: the JSON branch
      dsimp only at h
      split at h
      · injection h with h
        subst h
        simp at hp
      · split at h
        · rename_i xs _
          injection h with h
          subst h
          exact validatePlans_names xs p hp
        · injection h with h
          subst h
          simp at hp
        · injection h with h
          subst h
          simp at hp
        · exact Except.noConfusion h
    · -- empty segment: falsy, legacy branch
      injection h with h
      subst h
      exact legacyDay_names d _ p hp
  · -- no separator: legacy branch
    injection h with h
    subst h
    exact legacyDay_names d _ p hp

theorem load_names (content : Str) (d : Day) (p : Plan)
    (hp : p ∈ (load_schedule_data (some content) d).plans) : sanitize_input p.name ≠ [] := by
  simp only [load_schedule_data] at hp
  split at hp
  · split at hp
    · dsimp only at hp
      split at hp
      · rename_i ds _
        split at hp
        · rename_i dd hok
          exact parseDayDataE_names d ds dd p hok hp
        · simp [initialize_default_schedule] at hp
      · simp [initialize_default_schedule] at hp
    · simp [initialize_default_schedule] at hp
  · simp [initialize_default_schedule] at hp

/-- Claim C4: no plan whose name is empty after sanitization is ever
persisted by encode (the save-side filter keeps only plans with
non-empty sanitized names) or produced by decode (for any file content
whatsoever); in particular `decode(encode(W))` contains no such plan
for any WeekSchedule `W`. -/
theorem claim_C4 :
    (∀ ps : List Plan,
      (validPlansOf ps).all (fun p => decide (sanitize_input p.name ≠ [])) = true) ∧
    (∀ (content : Str) (d : Day),
      ((load_schedule_data (some content)) d).plans.all
        (fun p => decide (sanitize_input p.name ≠ [])) = true) ∧
    (∀ (w : WeekSchedule) (date : Str) (d : Day),
      ((load_schedule_data (some (saveFileContent date w))) d).plans.all
        (fun p => decide (sanitize_input p.name ≠ [])) = true) := by
  refine ⟨fun ps => ?_, fun content d => ?_, fun w date d => ?_⟩
  · exact List.all_eq_true.mpr fun p hp => by
      simpa using validPlansOf_names ps p hp
  · exact List.all_eq_true.mpr fun p hp => by
      simpa using load_names content d p hp
  · exact List.all_eq_true.mpr fun p hp => by
      simpa using load_names (saveFileContent date w) d p hp

/-! ## Helper lemmas and claim theorem: C5 (legacy fallback) -/

theorem pySplitOnce_none_fst (sep s : Str) (h : (pySplitOnce sep s).2 = none) :
    (pySplitOnce sep s).1 = s := by
  induction s with
  | nil =>
      simp only [pySplitOnce]
      split <;> rfl
  | cons c r ih =>
      simp only [pySplitOnce] at h ⊢
      split at h <;> rename_i hpre
      · simp at h
      · rw [if_neg hpre]
        dsimp only at h ⊢
        rw [ih h]

theorem pyOr_nil (a : Str) : pyOr a [] = a := by
  unfold pyOr
  split <;> simp_all

/-- Claim C5: for a day record whose captured content contains no
separator token and whose pipe-split (after unescaping) has at least 7
fields with fields 1 and 3 both `"yes"`, decoding takes the legacy
branch without raising and yields exactly the two fixed-label plans
(`Dollar General` with cleaned field 2, `JJ Pizza` with cleaned field 4)
plus a `Note` plan with cleaned field 6 iff that cleaned field is
non-empty, and the cleaned field 5 becomes the day's goals. -/
theorem claim_C5 (d : Day) (content : Str)
    (hsep : (pySplitOnce PLAN_SAVE_SEPARATOR content).2 = none)
    (h7 : 7 ≤ (pySplit '|' (unesc content)).length)
    (h1 : (pySplit '|' (unesc content)).getD 1 [] = "yes".data)
    (h3 : (pySplit '|' (unesc content)).getD 3 [] = "yes".data) :
    ∃ dd, parseDayDataE d content = .ok dd ∧
      dd.plans =
        [{ name := "Dollar General".data,
           details := clean_text ((pySplit '|' (unesc content)).getD 2 []) },
         { name := "JJ Pizza".data,
           details := clean_text ((pySplit '|' (unesc content)).getD 4 []) }] ++
        (if clean_text ((pySplit '|' (unesc content)).getD 6 []) ≠ [] then
          [{ name := "Note".data,
             details := clean_text ((pySplit '|' (unesc content)).getD 6 []) }]
         else []) ∧
      dd.goals = clean_text ((pySplit '|' (unesc content)).getD 5 []) := by
  have hfst := pySplitOnce_none_fst PLAN_SAVE_SEPARATOR content hsep
  refine ⟨legacyDay d (pySplit '|' (unesc content)), ?_, ?_, ?_⟩
  · simp only [parseDayDataE, hfst]
    rw [hsep]
  · simp only [legacyDay, if_pos h7, h1, h3]
    simp
  · simp only [legacyDay, if_pos h7]
    exact pyOr_nil _

/-- Claim C5, witness: the legacy record
`st|yes|4h|yes|5h|goal|note` decodes to the two fixed-label plans plus a
`Note` plan, with field 5 as goals. -/
theorem claim_C5_witness :
    ∃ dd, parseDayDataE Day.wed "st|yes|4h|yes|5h|goal|note".data = .ok dd ∧
      dd.plans =
        [{ name := "Dollar General".data,
           details := clean_text ((pySplit '|' (unesc "st|yes|4h|yes|5h|goal|note".data)).getD 2 []) },
         { name := "JJ Pizza".data,
           details := clean_text ((pySplit '|' (unesc "st|yes|4h|yes|5h|goal|note".data)).getD 4 []) }] ++
        (if clean_text ((pySplit '|' (unesc "st|yes|4h|yes|5h|goal|note".data)).getD 6 []) ≠ [] then
          [{ name := "Note".data,
             details := clean_text ((pySplit '|' (unesc "st|yes|4h|yes|5h|goal|note".data)).getD 6 []) }]
         else []) ∧
      dd.goals = clean_text ((pySplit '|' (unesc "st|yes|4h|yes|5h|goal|note".data)).getD 5 []) :=
  claim_C5 Day.wed "st|yes|4h|yes|5h|goal|note".data (by decide) (by decide) (by decide)
    (by decide)

/-! ## Helper lemma and claim theorem: C7 (week summary) -/

theorem weekSummary_eq (w : WeekSchedule) :
    weekSummary w =
      ((Day.all.map fun d => studyHoursOf (w d).study_time).sum,
       (Day.all.map fun d => visiblePlanCount (w d).plans).sum,
       Day.all.countP fun d => decide ((w d).goals ≠ [])) := by
  have H : ∀ (l : List Day) (acc : ℚ × Nat × Nat),
      l.foldl (fun acc d =>
        (acc.1 + studyHoursOf (w d).study_time,
         acc.2.1 + visiblePlanCount (w d).plans,
         acc.2.2 + if (w d).goals ≠ [] then 1 else 0)) acc =
      (acc.1 + (l.map fun d => studyHoursOf (w d).study_time).sum,
       acc.2.1 + (l.map fun d => visiblePlanCount (w d).plans).sum,
       acc.2.2 + l.countP fun d => decide ((w d).goals ≠ [])) := by
    intro l
    induction l with
    | nil => intro acc; simp
    | cons d rest ih =>
        intro acc
        simp only [List.foldl_cons, List.map_cons, List.sum_cons, List.countP_cons, ih]
        refine Prod.ext ?_ (Prod.ext ?_ ?_)
        · simp only
          ring
        · simp only
          omega
        · simp only
          by_cases hd : (w d).goals = [] <;> simp [hd] <;> omega
  rw [weekSummary, H Day.all (0, 0, 0)]
  simp

/-- Claim C7: the text report's summary equals (a) the sum over days of
study hours parsed from `HH:MM-HH:MM`-prefixed study-time strings with
the PM rollover rule (plus 12 on the end hour when it is below the
start hour) and zero for unparsable strings, (b) the count of plans
whose details are non-empty after trimming, and (c) the count of days
with non-empty goals; in particular a week with only Monday's
`11:00-3:00` totals 4.0 study hours. -/
theorem claim_C7 :
    (∀ w : WeekSchedule,
      weekSummary w =
        ((Day.all.map fun d => studyHoursOf (w d).study_time).sum,
         (Day.all.map fun d => visiblePlanCount (w d).plans).sum,
         Day.all.countP fun d => decide ((w d).goals ≠ []))) ∧
    studyHoursOf "11:00-3:00".data = 4 ∧
    weekSummary
      (fun d => if d = Day.monday then
        { study_time := "11:00-3:00".data, goals := [], plans := [] }
      else { study_time := [], goals := [], plans := [] }) = (4, 0, 0) := by
  have hm : matchTimeRange "11:00-3:00".data = some (11, 0, 3, 0) := rfl
  have hs : studyHoursOf "11:00-3:00".data = 4 := by
    rw [studyHoursOf, if_neg (by decide), hm]
    norm_num
  refine ⟨weekSummary_eq, hs, ?_⟩
  rw [weekSummary_eq]
  have h0 : studyHoursOf [] = 0 := rfl
  have hv : visiblePlanCount [] = 0 := rfl
  simp [Day.all, hs, h0, hv]

/-! ## Helper lemmas: the escaped-content structure of saved lines -/

theorem Esc.append {a b : Str} (ha : Esc a) (hb : Esc b) : Esc (a ++ b) := by
  induction ha with
  | nil => exact hb
  | chr h1 h2 _ ih => exact .chr h1 h2 ih
  | pair c _ ih => exact .pair c ih

theorem esc_of_chars {s : Str} (h : ∀ c ∈ s, c ≠ '"' ∧ c ≠ '\\') : Esc s := by
  induction s with
  | nil => exact .nil
  | cons c r ih =>
      exact .chr (h c (by simp)).1 (h c (by simp)).2
        (ih fun x hx => h x (List.mem_cons_of_mem c hx))

theorem esc_head_ne {s : Str} (h : Esc s) : s.head? ≠ some '"' := by
  cases h with
  | nil => simp
  | chr h1 h2 _ => simpa using h1
  | pair c _ => simp

theorem escB_cons (c : Char) (r : Str) :
    escB (c :: r) = if c = '\\' then '\\' :: '\\' :: escB r else c :: escB r := rfl

theorem escQ_cons (c : Char) (r : Str) :
    escQ (c :: r) = if c = '"' then '\\' :: '"' :: escQ r else c :: escQ r := rfl

theorem shellEsc_nil : shellEsc [] = [] := rfl

theorem shellEsc_cons (c : Char) (r : Str) :
    shellEsc (c :: r) =
      (if c = '\\' then ['\\', '\\'] else if c = '"' then ['\\', '"'] else [c]) ++
        shellEsc r := by
  unfold shellEsc
  by_cases h1 : c = '\\'
  · subst h1
    simp [escB_cons, escQ_cons]
  · by_cases h2 : c = '"'
    · subst h2
      simp [escB_cons, escQ_cons]
    · simp [escB_cons, escQ_cons, h1, h2]

theorem esc_shellEsc (s : Str) : Esc (shellEsc s) := by
  induction s with
  | nil => exact .nil
  | cons c r ih =>
      rw [shellEsc_cons]
      by_cases h1 : c = '\\'
      · subst h1
        rw [if_pos rfl]
        exact Esc.pair '\\' ih
      · by_cases h2 : c = '"'
        · subst h2
          rw [if_neg h1, if_pos rfl]
          exact Esc.pair '"' ih
        · rw [if_neg h1, if_neg h2]
          exact Esc.chr h2 h1 ih

theorem shellEsc_eq_nil_iff (s : Str) : shellEsc s = [] ↔ s = [] := by
  cases s with
  | nil => simp [shellEsc_nil]
  | cons c r =>
      rw [shellEsc_cons]
      constructor
      · intro h
        rcases List.append_eq_nil.mp h with ⟨h1, -⟩
        exfalso
        split at h1
        · simp at h1
        · split at h1 <;> simp at h1
      · intro h
        simp at h

theorem shellEsc_not_mem {s : Str} {c : Char} (hc1 : c ≠ '\\') (h : c ∉ s) :
    c ∉ shellEsc s := by
  induction s with
  | nil => simp [shellEsc_nil]
  | cons x r ih =>
      rw [shellEsc_cons]
      simp only [List.mem_cons, not_or] at h
      intro hmem
      rcases List.mem_append.mp hmem with hu | hr
      · have hcx : c = '\\' ∨ c = x := by
          split at hu
          · left
            simpa using hu
          · split at hu
            · rename_i hx
              simp at hu
              rcases hu with h' | h'
              · left; exact h'
              · right; rw [hx]; exact h'
            · right
              simpa using hu
        rcases hcx with h' | h'
        · exact hc1 h'
        · exact h.1 h'
      · exact (ih h.2) hr

theorem shellEsc_getLast {s : Str} {c : Char} (hc1 : c ≠ '\\') (hc2 : c ≠ '"')
    (h : s.getLast? = some c) : (shellEsc s).getLast? = some c := by
  induction s with
  | nil => simp at h
  | cons x r ih =>
      rw [shellEsc_cons]
      cases r with
      | nil =>
          have hx : x = c := by
            have : ([x] : Str).getLast? = some x := rfl
            rw [this] at h
            exact Option.some.inj h
          subst hx
          rw [if_neg (fun hh => hc1 hh), if_neg (fun hh => hc2 hh)]
          rfl
      | cons y r' =>
          have hr : (y :: r').getLast? = some c := by
            rw [← List.getLast?_cons_cons]
            exact h
          have hne : shellEsc (y :: r') ≠ [] := by
            rw [Ne, shellEsc_eq_nil_iff]
            simp
          rw [List.getLast?_append_of_ne_nil _ hne]
          exact ih hr

theorem captureQuoted_cons (c : Char) (rest : Str) :
    captureQuoted (c :: rest) =
      if c = '"' then some []
      else if c = '\\' then
        (match rest with
         | [] => none
         | c2 :: r2 => (captureQuoted r2).map (fun t => '\\' :: c2 :: t))
      else (captureQuoted rest).map (fun t => c :: t) := by
  cases rest <;> rfl

theorem captureQuoted_esc {s : Str} (h : Esc s) (t : Str) :
    captureQuoted (s ++ '"' :: t) = some s := by
  induction h with
  | nil =>
      rw [List.nil_append, captureQuoted_cons, if_pos rfl]
  | chr h1 h2 _ ih =>
      rename_i c s' _
      rw [List.cons_append, captureQuoted_cons, if_neg h1, if_neg h2, ih]
      rfl
  | pair c _ ih =>
      rename_i s' _
      rw [List.cons_append, List.cons_append, captureQuoted_cons,
        if_neg (by decide : ¬('\\' : Char) = '"'), if_pos rfl]
      dsimp only
      rw [ih]
      rfl

theorem replQB_cons₂ (c1 c2 : Char) (r : Str) :
    replQB (c1 :: c2 :: r) =
      if c1 = '\\' ∧ c2 = '"' then '"' :: replQB r else c1 :: replQB (c2 :: r) := rfl

theorem replQB_cons_ne (c : Char) (w : Str) (h : c ≠ '\\') :
    replQB (c :: w) = c :: replQB w := by
  cases w with
  | nil => rfl
  | cons c2 w' => rw [replQB_cons₂, if_neg (fun hc => h hc.1)]

theorem replQB_bs_quote (w : Str) : replQB ('\\' :: '"' :: w) = '"' :: replQB w := by
  rw [replQB_cons₂, if_pos ⟨rfl, rfl⟩]

theorem replQB_bs_cons (w : Str) (hw : w.head? ≠ some '"') :
    replQB ('\\' :: w) = '\\' :: replQB w := by
  cases w with
  | nil => rfl
  | cons cw w' =>
      have hne : cw ≠ '"' := by simpa using hw
      rw [replQB_cons₂, if_neg (fun hc => hne hc.2)]

theorem replBB_cons₂ (c1 c2 : Char) (r : Str) :
    replBB (c1 :: c2 :: r) =
      if c1 = '\\' ∧ c2 = '\\' then '\\' :: replBB r else c1 :: replBB (c2 :: r) := rfl

theorem replBB_cons_ne (c : Char) (w : Str) (h : c ≠ '\\') :
    replBB (c :: w) = c :: replBB w := by
  cases w with
  | nil => rfl
  | cons c2 w' => rw [replBB_cons₂, if_neg (fun hc => h hc.1)]

theorem replBB_pair (w : Str) : replBB ('\\' :: '\\' :: w) = '\\' :: replBB w := by
  rw [replBB_cons₂, if_pos ⟨rfl, rfl⟩]

theorem replQB_shellEsc_append (s t : Str) (ht : t.head? ≠ some '"') :
    replQB (shellEsc s ++ t) = escB s ++ replQB t := by
  induction s with
  | nil => simp [shellEsc_nil, escB]
  | cons c r ih =>
      have hhead : (shellEsc r ++ t).head? ≠ some '"' := by
        cases hr : shellEsc r with
        | nil => simpa [hr] using ht
        | cons a as =>
            have h2 := esc_head_ne (esc_shellEsc r)
            rw [hr] at h2
            simpa using h2
      by_cases h1 : c = '\\'
      · subst h1
        rw [shellEsc_cons, if_pos rfl, escB_cons, if_pos rfl]
        simp only [List.cons_append, List.nil_append]
        rw [replQB_cons₂, if_neg (by decide), replQB_bs_cons _ hhead, ih]
      · by_cases h2 : c = '"'
        · subst h2
          rw [shellEsc_cons, if_neg h1, if_pos rfl, escB_cons, if_neg h1]
          simp only [List.cons_append, List.nil_append]
          rw [replQB_bs_quote, ih]
        · rw [shellEsc_cons, if_neg h1, if_neg h2, escB_cons, if_neg h1]
          simp only [List.cons_append, List.nil_append]
          rw [replQB_cons_ne c _ h1, ih]

theorem replBB_escB_append (s t : Str) : replBB (escB s ++ t) = s ++ replBB t := by
  induction s with
  | nil => simp [escB]
  | cons c r ih =>
      by_cases h1 : c = '\\'
      · subst h1
        rw [escB_cons, if_pos rfl]
        simp only [List.cons_append]
        rw [replBB_pair, ih]
      · rw [escB_cons, if_neg h1]
        simp only [List.cons_append]
        rw [replBB_cons_ne c _ h1, ih]

theorem replQB_nil : replQB [] = [] := rfl

theorem replBB_nil : replBB [] = [] := rfl

theorem replQB_shellEsc (s : Str) : replQB (shellEsc s) = escB s := by
  have h := replQB_shellEsc_append s [] (by simp)
  simpa [replQB_nil] using h

theorem replBB_escB (s : Str) : replBB (escB s) = s := by
  have h := replBB_escB_append s []
  simpa [replBB_nil] using h

theorem unesc_shellEsc (s : Str) : unesc (shellEsc s) = s := by
  rw [unesc, replQB_shellEsc, replBB_escB]

theorem unesc_legacy (a b : Str) :
    unesc (shellEsc a ++ '|' :: shellEsc b) = a ++ '|' :: b := by
  rw [unesc, replQB_shellEsc_append a _ (by simp), replQB_cons_ne '|' _ (by decide),
    replQB_shellEsc, replBB_escB_append, replBB_cons_ne '|' _ (by decide), replBB_escB]

/-! ## Helper lemmas: locating the separator split -/

theorem pySplitOnce_cons (sep : Str) (c : Char) (r : Str) :
    pySplitOnce sep (c :: r) =
      if sep.isPrefixOf (c :: r) = true then ([], some ((c :: r).drop sep.length))
      else (c :: (pySplitOnce sep r).1, (pySplitOnce sep r).2) := rfl

theorem isPrefixOf_append_self (l z : Str) : l.isPrefixOf (l ++ z) = true := by
  induction l with
  | nil => simp [List.isPrefixOf]
  | cons a as ih => simpa [List.isPrefixOf] using ih

theorem pySplitOnce_self (sep z : Str) (hne : sep ≠ []) :
    pySplitOnce sep (sep ++ z) = ([], some z) := by
  cases sep with
  | nil => exact absurd rfl hne
  | cons a as =>
      rw [List.cons_append, pySplitOnce_cons, ← List.cons_append,
        if_pos (isPrefixOf_append_self (a :: as) z)]
      rw [List.drop_left]

theorem sep_not_prefix_cons (c : Char) (hc : c ≠ '|') (w : Str) :
    PLAN_SAVE_SEPARATOR.isPrefixOf (c :: w) = false := by
  have hsep : PLAN_SAVE_SEPARATOR =
      '|' :: '|' :: 'P' :: 'L' :: 'A' :: 'N' :: 'S' :: '|' :: '|' :: [] := rfl
  have hb : ('|' == c) = false := beq_eq_false_iff_ne.mpr (Ne.symm hc)
  rw [hsep]
  simp [List.isPrefixOf, hb]

theorem splitAfterPipe (y z : Str) (hy : '|' ∉ y) :
    pySplitOnce PLAN_SAVE_SEPARATOR (y ++ PLAN_SAVE_SEPARATOR ++ z) = (y, some z) := by
  induction y with
  | nil =>
      simp only [List.nil_append]
      exact pySplitOnce_self _ z (by decide)
  | cons c y' ih =>
      simp only [List.mem_cons, not_or] at hy
      simp only [List.cons_append]
      rw [pySplitOnce_cons, if_neg (by rw [sep_not_prefix_cons c (Ne.symm hy.1)]; simp)]
      rw [ih hy.2]

theorem sep_not_prefix_pipe (y z : Str) (hy : '|' ∉ y) :
    PLAN_SAVE_SEPARATOR.isPrefixOf ('|' :: (y ++ PLAN_SAVE_SEPARATOR ++ z)) = false := by
  cases y with
  | nil =>
      have hsep : PLAN_SAVE_SEPARATOR =
          '|' :: '|' :: 'P' :: 'L' :: 'A' :: 'N' :: 'S' :: '|' :: '|' :: [] := rfl
      rw [hsep]
      simp [List.isPrefixOf]
  | cons cy y' =>
      simp only [List.mem_cons, not_or] at hy
      have hsep : PLAN_SAVE_SEPARATOR =
          '|' :: '|' :: 'P' :: 'L' :: 'A' :: 'N' :: 'S' :: '|' :: '|' :: [] := rfl
      have hb : ('|' == cy) = false := beq_eq_false_iff_ne.mpr hy.1
      rw [hsep]
      simp [List.isPrefixOf, hb]

theorem splitCombined (x y z : Str) (hx : '|' ∉ x) (hy : '|' ∉ y) :
    pySplitOnce PLAN_SAVE_SEPARATOR (x ++ '|' :: y ++ PLAN_SAVE_SEPARATOR ++ z) =
      (x ++ '|' :: y, some z) := by
  induction x with
  | nil =>
      simp only [List.nil_append, List.cons_append]
      rw [pySplitOnce_cons, if_neg (by rw [sep_not_prefix_pipe y z hy]; simp)]
      rw [splitAfterPipe y z hy]
  | cons c x' ih =>
      simp only [List.mem_cons, not_or] at hx
      simp only [List.cons_append]
      rw [pySplitOnce_cons, if_neg (by rw [sep_not_prefix_cons c (Ne.symm hx.1)]; simp)]
      rw [ih hx.2]

/-! ## Helper lemmas: the regex search over the saved file -/

theorem findCapture_cons (pref : Str) (c : Char) (r : Str) :
    findCapture pref (c :: r) =
      if pref.isPrefixOf (c :: r) = true then
        (match captureQuoted ((c :: r).drop pref.length) with
         | some t => some t
         | none => findCapture pref r)
      else findCapture pref r := rfl

theorem findCapture_skip_char (pref : Str) (c : Char) (r : Str) (h : ¬ pref <+: (c :: r)) :
    findCapture pref (c :: r) = findCapture pref r := by
  rw [findCapture_cons, if_neg (by simpa [List.isPrefixOf_iff_prefix] using h)]

theorem getLast?_tail_ne {c : Char} {s : Str} (h : (c :: s).getLast? ≠ some '=') :
    s.getLast? ≠ some '=' := by
  cases s with
  | nil => simp
  | cons d s' =>
      rw [List.getLast?_cons_cons] at h
      exact h

/-- No occurrence of a pattern `q ++ "=\""` can start inside
well-escaped content followed by the closing quote: the pattern's final
quote would have to land on an escaped quote (preceded by a backslash,
not `=`), on the closing quote (forcing the content to end in `=`), or
beyond it (forcing a quote inside `q`). -/
theorem escNoMatch {body : Str} (hb : Esc body) :
    ∀ (q' y z : Str), '"' ∉ q' → body.getLast? ≠ some '=' →
      body ++ '"' :: '\n' :: y ≠ q' ++ '=' :: '"' :: z := by
  induction hb with
  | nil =>
      intro q' y z hq hlast heq
      rw [List.nil_append] at heq
      cases q' with
      | nil => simp at heq
      | cons a q'' =>
          rw [List.cons_append] at heq
          injection heq with h1 _
          exact hq (h1 ▸ List.mem_cons_self a q'')
  | chr h1 h2 hs ih =>
      rename_i c s
      intro q' y z hq hlast heq
      rw [List.cons_append] at heq
      cases q' with
      | nil =>
          rw [List.nil_append] at heq
          injection heq with hc htail
          cases s with
          | nil =>
              exact hlast (by rw [hc]; rfl)
          | cons d s' =>
              rw [List.cons_append] at htail
              injection htail with hd _
              have := esc_head_ne hs
              simp [hd] at this
      | cons a q'' =>
          rw [List.cons_append] at heq
          injection heq with hc htail
          exact ih q'' y z (fun hm => hq (List.mem_cons_of_mem a hm))
            (getLast?_tail_ne hlast) htail
  | pair c hs ih =>
      rename_i s
      intro q' y z hq hlast heq
      rw [List.cons_append, List.cons_append] at heq
      cases q' with
      | nil =>
          rw [List.nil_append] at heq
          injection heq with hb0 _
          exact absurd hb0 (by decide)
      | cons a q'' =>
          rw [List.cons_append] at heq
          injection heq with ha htail
          cases q'' with
          | nil =>
              rw [List.nil_append] at htail
              injection htail with hc htail2
              cases s with
              | nil =>
                  apply hlast
                  rw [hc]
                  rfl
              | cons d s' =>
                  rw [List.cons_append] at htail2
                  injection htail2 with hd _
                  have := esc_head_ne hs
                  simp [hd] at this
          | cons b q''' =>
              rw [List.cons_append] at htail
              injection htail with hcb htail2
              exact ih q''' y z
                (fun hm => hq (List.mem_cons_of_mem a (List.mem_cons_of_mem b hm)))
                (getLast?_tail_ne (getLast?_tail_ne hlast)) htail2

theorem findCapture_skip_escBody (q : Str) (hq0 : q ≠ []) (hq1 : '"' ∉ q) (hq2 : '\n' ∉ q)
    {body : Str} (hb : Esc body) (hlast : body.getLast? ≠ some '=') (y : Str) :
    findCapture (q ++ ['=', '"']) (body ++ '"' :: '\n' :: y) =
      findCapture (q ++ ['=', '"']) y := by
  have hpq : ∀ X : Str, (q ++ ['=', '"']) <+: X → ∃ z, X = q ++ '=' :: '"' :: z := by
    rintro X ⟨t, ht⟩
    exact ⟨t, by rw [← ht]; simp⟩
  have hskip2 : findCapture (q ++ ['=', '"']) ('"' :: '\n' :: y) =
      findCapture (q ++ ['=', '"']) y := by
    rw [findCapture_skip_char _ _ _ ?hA, findCapture_skip_char _ _ _ ?hB]
    case hA =>
      intro hpre
      obtain ⟨z, hz⟩ := hpq _ hpre
      cases q with
      | nil => exact hq0 rfl
      | cons a q'' =>
          rw [List.cons_append] at hz
          injection hz with h1 _
          exact hq1 (h1 ▸ List.mem_cons_self a q'')
    case hB =>
      intro hpre
      obtain ⟨z, hz⟩ := hpq _ hpre
      cases q with
      | nil => exact hq0 rfl
      | cons a q'' =>
          rw [List.cons_append] at hz
          injection hz with h1 _
          exact hq2 (h1 ▸ List.mem_cons_self a q'')
  revert hlast
  induction hb with
  | nil =>
      intro hlast
      rw [List.nil_append]
      exact hskip2
  | chr h1 h2 hs ih =>
      rename_i c s
      intro hlast
      rw [List.cons_append, findCapture_skip_char _ _ _ ?hno]
      case hno =>
        intro hpre
        obtain ⟨z, hz⟩ := hpq _ hpre
        exact escNoMatch (Esc.chr h1 h2 hs) q y z hq1 hlast (by rw [← hz]; rw [List.cons_append])
      exact ih (getLast?_tail_ne hlast)
  | pair c hs ih =>
      rename_i s
      intro hlast
      rw [List.cons_append, List.cons_append, findCapture_skip_char _ _ _ ?hno1,
        findCapture_skip_char _ _ _ ?hno2]
      case hno1 =>
        intro hpre
        obtain ⟨z, hz⟩ := hpq _ hpre
        exact escNoMatch (Esc.pair c hs) q y z hq1 hlast
          (by rw [← hz]; rw [List.cons_append, List.cons_append])
      case hno2 =>
        intro hpre
        obtain ⟨z, hz⟩ := hpq _ hpre
        cases q with
        | nil => exact hq0 rfl
        | cons a q'' =>
            rw [List.cons_append] at hz
            injection hz with ha htail
            exact escNoMatch hs q'' y z (fun hm => hq1 (List.mem_cons_of_mem a hm))
              (getLast?_tail_ne (getLast?_tail_ne hlast)) htail
      exact ih (getLast?_tail_ne (getLast?_tail_ne hlast))

theorem hasOccur_cons (pref : Str) (c : Char) (r : Str) :
    hasOccur pref (c :: r) = (pref.isPrefixOf (c :: r) || hasOccur pref r) := rfl

theorem boundaryBad_cons_mono (pref : Str) (c : Char) (x : Str)
    (h : boundaryBad pref x = true) : boundaryBad pref (c :: x) = true := by
  simp only [boundaryBad, List.any_eq_true, List.mem_range, Bool.and_eq_true,
    decide_eq_true_eq] at h ⊢
  obtain ⟨k, hk, hk0, hsuf⟩ := h
  refine ⟨k, hk, hk0, ?_⟩
  rw [List.isSuffixOf_iff_suffix] at hsuf ⊢
  exact hsuf.trans (List.suffix_cons c x)

theorem findCapture_skip_concrete (pref x y : Str) (h1 : hasOccur pref x = false)
    (h2 : boundaryBad pref x = false) : findCapture pref (x ++ y) = findCapture pref y := by
  induction x with
  | nil => rw [List.nil_append]
  | cons c x' ih =>
      rw [List.cons_append, findCapture_skip_char _ _ _ ?hno]
      case hno =>
        rintro ⟨t, ht⟩
        by_cases hlen : pref.length ≤ (c :: x').length
        · have hpre : pref <+: (c :: x') := by
            have h3 : pref <+: (c :: x') ++ y := ⟨t, by rw [ht]; rw [List.cons_append]⟩
            have h4 : pref = ((c :: x') ++ y).take pref.length :=
              (List.prefix_iff_eq_take.mp h3)
            rw [List.take_append_of_le_length hlen] at h4
            rw [h4]
            exact List.take_prefix _ _
          have : hasOccur pref (c :: x') = true := by
            rw [hasOccur_cons, Bool.or_eq_true]
            exact Or.inl (List.isPrefixOf_iff_prefix.mpr hpre)
          rw [hasOccur_cons] at h1
          rcases Bool.or_eq_false_iff.mp h1 with ⟨ha, -⟩
          exact absurd (List.isPrefixOf_iff_prefix.mpr hpre) (by simp [ha])
        · push_neg at hlen
          have htake : pref.take (c :: x').length = c :: x' := by
            have h3 : ((c :: x') ++ y).take (c :: x').length = c :: x' := List.take_left _ _
            have h4 : ((c :: x') ++ y).take (c :: x').length
                = (pref ++ t).take (c :: x').length := by
              rw [List.cons_append, ht]
            rw [h4, List.take_append_of_le_length (by omega)] at h3
            exact h3
          have : boundaryBad pref (c :: x') = true := by
            simp only [boundaryBad, List.any_eq_true, List.mem_range, Bool.and_eq_true,
              decide_eq_true_eq]
            refine ⟨(c :: x').length, hlen, by simp, ?_⟩
            rw [htake, List.isSuffixOf_iff_suffix]
          rw [this] at h2
          exact absurd h2 (by simp)
      · apply ih
        · rw [hasOccur_cons] at h1
          exact (Bool.or_eq_false_iff.mp h1).2
        · rcases hb : boundaryBad pref x' with _ | _
          · rfl
          · rw [boundaryBad_cons_mono pref c x' hb] at h2
            exact absurd h2 (by simp)

theorem findCapture_skip_headchar (pref x y : Str) (c₀ : Char) (h0 : pref.head? = some c₀)
    (hx : c₀ ∉ x) : findCapture pref (x ++ y) = findCapture pref y := by
  induction x with
  | nil => rw [List.nil_append]
  | cons c x' ih =>
      simp only [List.mem_cons, not_or] at hx
      rw [List.cons_append, findCapture_skip_char _ _ _ ?hno]
      case hno =>
        rintro ⟨t, ht⟩
        cases pref with
        | nil => simp at h0
        | cons p0 pr =>
            rw [List.cons_append] at ht
            injection ht with hp _
            have : p0 = c₀ := by simpa using h0
            exact hx.1 (by rw [← this, hp])
      exact ih hx.2

theorem findCapture_self (pref : Str) (hne : pref ≠ []) {body : Str} (hb : Esc body)
    (rest : Str) :
    findCapture pref (pref ++ (body ++ '"' :: '\n' :: rest)) = some body := by
  cases pref with
  | nil => exact absurd rfl hne
  | cons p0 pr =>
      rw [List.cons_append, findCapture_cons, ← List.cons_append,
        if_pos (isPrefixOf_append_self (p0 :: pr) _)]
      rw [List.drop_left]
      rw [captureQuoted_esc hb ('\n' :: rest)]

/-! ## Helper lemmas: parsing back the dumped plans JSON -/

theorem sanitize_fixed_chars {s : Str} (h : sanitize_input s = s) :
    ∀ c ∈ s, isDangerous c = false := by
  by_cases h0 : s = []
  · subst h0
    intro c hc
    simp at hc
  · by_cases h1 : s = "DIEEEEE".data
    · subst h1
      decide
    · rw [sanitize_filter s h0 h1] at h
      intro c hc
      have := List.filter_eq_self.mp h c hc
      simpa using this

theorem not_bs_of_clean {c : Char} (h : isDangerous c = false) : c ≠ '\\' := by
  intro hc
  rw [hc] at h
  exact absurd h (by decide)

theorem not_ctl_of_clean {c : Char} (h : isDangerous c = false) : ¬ c.toNat < 0x20 := by
  intro hc
  have h31 : c.toNat ≤ 0x1F := by omega
  simp [isDangerous, h31] at h

theorem jsonEscChar_clean {c : Char} (h : isDangerous c = false) :
    jsonEscChar c = if c = '"' then ['\\', '"'] else [c] := by
  have hb := not_bs_of_clean h
  have hctl := not_ctl_of_clean h
  by_cases hq : c = '"'
  · subst hq
    rfl
  · rw [if_neg hq]
    rw [jsonEscChar, if_neg hq, if_neg hb,
      if_neg (fun hc : c = '\n' => hctl (by rw [hc]; decide)),
      if_neg (fun hc : c = '\t' => hctl (by rw [hc]; decide)),
      if_neg (fun hc : c = '\r' => hctl (by rw [hc]; decide)),
      if_neg (fun hc : c = '\x08' => hctl (by rw [hc]; decide)),
      if_neg (fun hc : c = '\x0c' => hctl (by rw [hc]; decide)), if_neg hctl]

theorem flatMap_jsonEsc_len {s : Str} (h : ∀ c ∈ s, isDangerous c = false) :
    s.length ≤ (s.flatMap jsonEscChar).length := by
  induction s with
  | nil => simp
  | cons c s' ih =>
      rw [List.flatMap_cons, jsonEscChar_clean (h c (by simp)), List.length_append]
      have := ih (fun x hx => h x (List.mem_cons_of_mem c hx))
      have hlen : 1 ≤ (if c = '"' then ['\\', '"'] else [c]).length := by
        split <;> simp
      simp only [List.length_cons]
      omega

theorem psb_clean {s : Str} (h : ∀ c ∈ s, isDangerous c = false) :
    ∀ (fuel : Nat) (rest : Str), s.length < fuel →
      parseStringBody fuel (s.flatMap jsonEscChar ++ '"' :: rest) = some (s, rest) := by
  induction s with
  | nil =>
      intro fuel rest hf
      obtain ⟨f, rfl⟩ : ∃ f, fuel = f + 1 := ⟨fuel - 1, by omega⟩
      simp [parseStringBody]
  | cons c s' ih =>
      intro fuel rest hf
      obtain ⟨f, rfl⟩ : ∃ f, fuel = f + 1 := ⟨fuel - 1, by omega⟩
      have hc := h c (by simp)
      have hs' : ∀ x ∈ s', isDangerous x = false :=
        fun x hx => h x (List.mem_cons_of_mem c hx)
      have hrec := ih hs' f rest (by simpa using hf)
      rw [List.flatMap_cons, jsonEscChar_clean hc]
      by_cases hq : c = '"'
      · subst hq
        rw [if_pos rfl]
        simp only [List.cons_append, List.nil_append, List.append_assoc]
        simp only [parseStringBody, if_neg (by decide : ¬('\\' : Char) = '"'), if_pos rfl]
        simp only [unescapeOne]
        rw [if_pos trivial, hrec]
        rfl
      · rw [if_neg hq]
        have hb := not_bs_of_clean hc
        have hctl := not_ctl_of_clean hc
        simp only [List.cons_append, List.nil_append, List.append_assoc]
        simp only [parseStringBody]
        rw [if_neg hq, if_neg hb, if_neg hctl, hrec]
        rfl

theorem except_ok_bind {ε α β : Type} (a : α) (f : α → Except ε β) :
    (Except.ok a : Except ε α).bind f = f a := rfl

theorem skipWs_cons_of {c : Char} (h : isJsonWs c = false) (x : Str) :
    skipWs (c :: x) = c :: x := by
  simp [skipWs, List.dropWhile_cons, h]

theorem skipWs_space (x : Str) : skipWs (' ' :: x) = skipWs x := by
  simp only [skipWs]
  rw [List.dropWhile_cons, if_pos (by decide : isJsonWs ' ' = true)]

theorem joinComma_nil : joinComma [] = [] := rfl

theorem joinComma_one (x : Str) : joinComma [x] = x := rfl

theorem joinComma_cons2 (x y : Str) (ys : List Str) :
    joinComma (x :: y :: ys) = x ++ ", ".data ++ joinComma (y :: ys) := rfl

theorem planObj_shape (p : Plan) (rest : Str) :
    planObj p ++ rest =
      '\x7b' :: '"' :: 'n' :: 'a' :: 'm' :: 'e' :: '"' :: ':' :: ' ' :: '"' ::
        (p.name.flatMap jsonEscChar ++ '"' :: ',' :: ' ' :: '"' ::
          'd' :: 'e' :: 't' :: 'a' :: 'i' :: 'l' :: 's' :: '"' :: ':' :: ' ' :: '"' ::
            (p.details.flatMap jsonEscChar ++ '"' :: '\x7d' :: rest)) := by
  simp only [planObj, jsonStr, List.append_assoc, List.cons_append, List.nil_append,
    List.singleton_append]

theorem skipWs_headObj (p : Plan) (rest : Str) :
    skipWs (planObj p ++ rest) = planObj p ++ rest := by
  rw [planObj_shape, skipWs_cons_of (by decide : isJsonWs '\x7b' = false)]

theorem head?_headObj (p : Plan) (rest : Str) :
    (planObj p ++ rest).head? = some '\x7b' := by
  rw [planObj_shape]
  rfl

theorem skipWs_joinObj (p : Plan) (ps : List Plan) (rest : Str) :
    skipWs (joinComma ((p :: ps).map planObj) ++ rest) =
      joinComma ((p :: ps).map planObj) ++ rest := by
  cases ps with
  | nil =>
      simp only [List.map_cons, List.map_nil, joinComma_one]
      exact skipWs_headObj p rest
  | cons q qs =>
      simp only [List.map_cons, joinComma_cons2, List.append_assoc]
      exact skipWs_headObj p _

theorem head?_joinObj (p : Plan) (ps : List Plan) (rest : Str) :
    (joinComma ((p :: ps).map planObj) ++ rest).head? = some '\x7b' := by
  cases ps with
  | nil =>
      simp only [List.map_cons, List.map_nil, joinComma_one]
      exact head?_headObj p rest
  | cons q qs =>
      simp only [List.map_cons, joinComma_cons2, List.append_assoc]
      exact head?_headObj p _

theorem plansJson_shape (ps : List Plan) (rest : Str) :
    plansJson ps ++ rest = '[' :: (joinComma (ps.map planObj) ++ ']' :: rest) := by
  simp [plansJson]

theorem planObj_len_pos (p : Plan) : 1 ≤ (planObj p).length := by
  have h := planObj_shape p []
  rw [List.append_nil] at h
  rw [h]
  simp

theorem joinComma_len : ∀ ps : List Plan,
    ps.length ≤ (joinComma (ps.map planObj)).length := by
  intro ps
  induction ps with
  | nil => simp [joinComma_nil]
  | cons p ps' ih =>
      cases ps' with
      | nil =>
          simp only [List.map_cons, List.map_nil, joinComma_one, List.length_cons,
            List.length_nil]
          have := planObj_len_pos p
          omega
      | cons q qs =>
          simp only [List.map_cons, joinComma_cons2, List.length_append,
            List.length_cons] at ih ⊢
          have := planObj_len_pos p
          omega

theorem parse_jsonStrC {s : Str} (h : ∀ c ∈ s, isDangerous c = false)
    (fuel depth : Nat) (rest : Str) :
    parseVal (fuel + 1) depth ('"' :: (s.flatMap jsonEscChar ++ '"' :: rest)) =
      .ok (.str s, rest) := by
  simp only [parseVal, if_pos rfl, parseStringBodyE]
  rw [psb_clean h _ rest ?_]
  · rfl
  · have := flatMap_jsonEsc_len h
    simp only [List.length_append, List.length_cons]
    omega

theorem psb_key_name (fuel : Nat) (rest : Str) (hf : 4 < fuel) :
    parseStringBodyE fuel ('n' :: 'a' :: 'm' :: 'e' :: '"' :: rest) =
      .ok ("name".data, rest) := by
  have h := @psb_clean "name".data (by decide) fuel rest hf
  simp only [parseStringBodyE]
  rw [show ('n' :: 'a' :: 'm' :: 'e' :: '"' :: rest : Str) =
    ("name".data).flatMap jsonEscChar ++ '"' :: rest from rfl]
  rw [h]

theorem psb_key_details (fuel : Nat) (rest : Str) (hf : 7 < fuel) :
    parseStringBodyE fuel ('d' :: 'e' :: 't' :: 'a' :: 'i' :: 'l' :: 's' :: '"' :: rest) =
      .ok ("details".data, rest) := by
  have h := @psb_clean "details".data (by decide) fuel rest hf
  simp only [parseStringBodyE]
  rw [show ('d' :: 'e' :: 't' :: 'a' :: 'i' :: 'l' :: 's' :: '"' :: rest : Str) =
    ("details".data).flatMap jsonEscChar ++ '"' :: rest from rfl]
  rw [h]

theorem parse_planObj (p : Plan) (hn : ∀ c ∈ p.name, isDangerous c = false)
    (hd : ∀ c ∈ p.details, isDangerous c = false) (fuel depth : Nat) (rest : Str)
    (hdep : depth + 1 < RECURSION_LIMIT) :
    parseVal (fuel + 4) depth (planObj p ++ rest) = .ok (planVal p, rest) := by
  have hshape : planObj p ++ rest =
      '\x7b' :: '"' :: 'n' :: 'a' :: 'm' :: 'e' :: '"' :: ':' :: ' ' :: '"' ::
        (p.name.flatMap jsonEscChar ++ '"' :: ',' :: ' ' :: '"' ::
          'd' :: 'e' :: 't' :: 'a' :: 'i' :: 'l' :: 's' :: '"' :: ':' :: ' ' :: '"' ::
            (p.details.flatMap jsonEscChar ++ '"' :: '\x7d' :: rest)) := by
    simp only [planObj, jsonStr, List.append_assoc, List.cons_append, List.nil_append,
      List.singleton_append]
  rw [hshape]
  simp only [parseVal]
  rw [if_neg (by decide : ¬('\x7b' : Char) = '"'), if_neg (by decide : ¬('\x7b' : Char) = '[')]
  first
  | rw [if_pos rfl]
  | rw [if_pos trivial]
  rw [if_neg (Nat.not_le.mpr hdep)]
  simp only [skipWs_cons_of (by decide : isJsonWs '"' = false), List.head?_cons,
    List.tail_cons]
  rw [if_neg (by decide : ¬(some ('"' : Char) = some '\x7d'))]
  simp only [parseMembers, List.head?_cons, List.tail_cons]
  first
  | rw [if_pos rfl]
  | rw [if_pos trivial]
  rw [psb_key_name _ _ (by simp [List.length_append])]
  simp only [except_ok_bind]
  simp only [skipWs_cons_of (by decide : isJsonWs ':' = false), List.head?_cons,
    List.tail_cons]
  first
  | rw [if_pos rfl]
  | rw [if_pos trivial]
  simp only [skipWs_space]
  simp only [skipWs_cons_of (by decide : isJsonWs '"' = false)]
  rw [parse_jsonStrC hn (fuel + 1) (depth + 1)]
  simp only [except_ok_bind]
  simp only [skipWs_cons_of (by decide : isJsonWs ',' = false), List.head?_cons,
    List.tail_cons]
  first
  | rw [if_pos rfl]
  | rw [if_pos trivial]
  simp only [skipWs_space]
  simp only [skipWs_cons_of (by decide : isJsonWs '"' = false), List.head?_cons,
    List.tail_cons]
  first
  | rw [if_pos rfl]
  | rw [if_pos trivial]
  rw [psb_key_details _ _ (by simp [List.length_append])]
  simp only [except_ok_bind]
  simp only [skipWs_cons_of (by decide : isJsonWs ':' = false), List.head?_cons,
    List.tail_cons]
  first
  | rw [if_pos rfl]
  | rw [if_pos trivial]
  simp only [skipWs_space]
  simp only [skipWs_cons_of (by decide : isJsonWs '"' = false)]
  rw [parse_jsonStrC hd fuel (depth + 1)]
  simp only [except_ok_bind]
  simp only [skipWs_cons_of (by decide : isJsonWs '\x7d' = false), List.head?_cons,
    List.tail_cons]
  rw [if_neg (by decide : ¬(some ('\x7d' : Char) = some ',')), if_pos trivial]
  rfl

theorem parseElems_succ (fuel depth : Nat) (s : Str) (acc : List PyVal) :
    parseElems (fuel + 1) depth s acc = (parseVal fuel depth s).bind fun vr =>
      if (skipWs vr.2).head? = some ',' then
        parseElems fuel depth (skipWs (skipWs vr.2).tail) (acc ++ [vr.1])
      else if (skipWs vr.2).head? = some ']' then
        .ok (.list (acc ++ [vr.1]), (skipWs vr.2).tail)
      else .error .decodeErr := rfl

theorem parse_elems_plans : ∀ (ps : List Plan) (p : Plan),
    (∀ q ∈ p :: ps, (∀ c ∈ q.name, isDangerous c = false) ∧
      (∀ c ∈ q.details, isDangerous c = false)) →
    ∀ (acc : List PyVal) (rest : Str) (fuel depth : Nat),
      (p :: ps).length + 4 ≤ fuel → depth + 1 < RECURSION_LIMIT →
      parseElems fuel depth (joinComma ((p :: ps).map planObj) ++ ']' :: rest) acc =
        .ok (.list (acc ++ (p :: ps).map planVal), rest) := by
  intro ps
  induction ps with
  | nil =>
      intro p h acc rest fuel depth hf hdep
      simp only [List.length_cons, List.length_nil] at hf
      obtain ⟨g, rfl⟩ : ∃ g, fuel = (g + 4) + 1 := ⟨fuel - 5, by omega⟩
      simp only [List.map_cons, List.map_nil, joinComma_one]
      rw [parseElems_succ]
      rw [parse_planObj p (h p (by simp)).1 (h p (by simp)).2 g depth (']' :: rest) hdep]
      simp only [except_ok_bind]
      simp only [skipWs_cons_of (by decide : isJsonWs ']' = false), List.head?_cons,
        List.tail_cons]
      rw [if_neg (by decide : ¬(some (']' : Char) = some ','))]
      first
      | rw [if_pos rfl]
      | rw [if_pos trivial]
  | cons q qs ih =>
      intro p h acc rest fuel depth hf hdep
      simp only [List.length_cons] at hf
      obtain ⟨g, rfl⟩ : ∃ g, fuel = (g + 4) + 1 := ⟨fuel - 5, by omega⟩
      have hS : joinComma ((p :: q :: qs).map planObj) ++ ']' :: rest =
          planObj p ++ (',' :: ' ' ::
            (joinComma ((q :: qs).map planObj) ++ ']' :: rest)) := by
        simp only [List.map_cons, joinComma_cons2, List.append_assoc]
        rfl
      rw [hS]
      rw [parseElems_succ]
      rw [parse_planObj p (h p (by simp)).1 (h p (by simp)).2 g depth _ hdep]
      simp only [except_ok_bind]
      simp only [skipWs_cons_of (by decide : isJsonWs ',' = false), List.head?_cons,
        List.tail_cons]
      first
      | rw [if_pos rfl]
      | rw [if_pos trivial]
      rw [skipWs_space, skipWs_joinObj]
      have hrec := ih q (fun r hr => h r (by simp at hr ⊢; tauto)) (acc ++ [planVal p])
        rest (g + 4) depth (by simp only [List.length_cons]; omega) hdep
      rw [hrec]
      simp

theorem parse_plansJson (ps : List Plan)
    (h : ∀ q ∈ ps, (∀ c ∈ q.name, isDangerous c = false) ∧
      (∀ c ∈ q.details, isDangerous c = false))
    (fuel depth : Nat) (rest : Str) (hf : ps.length + 5 ≤ fuel)
    (hdep : depth + 2 < RECURSION_LIMIT) :
    parseVal fuel depth (plansJson ps ++ rest) = .ok (.list (ps.map planVal), rest) := by
  obtain ⟨f, rfl⟩ : ∃ f, fuel = f + 1 := ⟨fuel - 1, by omega⟩
  rw [plansJson_shape]
  cases ps with
  | nil =>
      simp only [List.map_nil, joinComma_nil, List.nil_append]
      simp only [parseVal]
      rw [if_neg (by decide : ¬('[' : Char) = '"')]
      first
      | rw [if_pos rfl]
      | rw [if_pos trivial]
      rw [if_neg (Nat.not_le.mpr (by omega : depth + 1 < RECURSION_LIMIT))]
      rw [skipWs_cons_of (by decide : isJsonWs ']' = false)]
      simp only [List.head?_cons, List.tail_cons]
      first
      | rw [if_pos rfl]
      | rw [if_pos trivial]
  | cons p ps' =>
      simp only [parseVal]
      rw [if_neg (by decide : ¬('[' : Char) = '"')]
      first
      | rw [if_pos rfl]
      | rw [if_pos trivial]
      rw [if_neg (Nat.not_le.mpr (by omega : depth + 1 < RECURSION_LIMIT))]
      rw [skipWs_joinObj, head?_joinObj]
      rw [if_neg (by decide : ¬(some ('\x7b' : Char) = some ']'))]
      exact parse_elems_plans ps' p h [] rest f (depth + 1)
        (by simp only [List.length_cons] at hf ⊢; omega) (by omega)

theorem jsonLoads_plansJson (ps : List Plan)
    (h : ∀ q ∈ ps, (∀ c ∈ q.name, isDangerous c = false) ∧
      (∀ c ∈ q.details, isDangerous c = false)) :
    jsonLoads (plansJson ps) = .ok (.list (ps.map planVal)) := by
  simp only [jsonLoads]
  have h1 : skipWs (plansJson ps) = plansJson ps := by
    simp only [plansJson, List.cons_append]
    rw [skipWs_cons_of (by decide : isJsonWs '[' = false)]
  rw [h1]
  nth_rewrite 2 [show plansJson ps = plansJson ps ++ [] from (List.append_nil _).symm]
  rw [parse_plansJson ps h _ 0 [] ?_ (by decide)]
  · rfl
  · have hj := joinComma_len ps
    simp only [plansJson, List.length_append, List.length_cons, List.length_nil]
    omega

theorem validPlansOf_fixed (ps : List Plan)
    (h : ∀ p ∈ ps, sanitize_input p.name = p.name ∧ p.name ≠ [] ∧
      sanitize_input p.details = p.details) :
    validPlansOf ps = ps := by
  induction ps with
  | nil => rfl
  | cons p t ih =>
      obtain ⟨h1, h2, h3⟩ := h p (by simp)
      simp only [validPlansOf, h1, h3]
      rw [if_pos h2, ih (fun q hq => h q (List.mem_cons_of_mem p hq))]

theorem validatePlans_planVal (ps : List Plan)
    (h : ∀ p ∈ ps, sanitize_input p.name = p.name ∧ p.name ≠ [] ∧
      sanitize_input p.details = p.details) :
    validatePlans (ps.map planVal) = ps := by
  induction ps with
  | nil => rfl
  | cons p t ih =>
      obtain ⟨h1, h2, h3⟩ := h p (by simp)
      simp only [List.map_cons, planVal, validatePlans]
      have e1 : pyStr (pyDictGet [("name".data, PyVal.str p.name),
          ("details".data, PyVal.str p.details)] "name".data (.str [])) = p.name := rfl
      have e2 : pyStr (pyDictGet [("name".data, PyVal.str p.name),
          ("details".data, PyVal.str p.details)] "details".data (.str [])) = p.details := rfl
      rw [e1, e2, h1, h3, if_pos h2, ih (fun q hq => h q (List.mem_cons_of_mem p hq))]

theorem pySplit_no (c : Char) (a : Str) (h : c ∉ a) : pySplit c a = [a] := by
  induction a with
  | nil => rfl
  | cons x r ih =>
      simp only [List.mem_cons, not_or] at h
      simp only [pySplit]
      rw [if_neg (Ne.symm h.1), ih h.2]

theorem pySplit_pair (a b : Str) (ha : '|' ∉ a) (hb : '|' ∉ b) :
    pySplit '|' (a ++ '|' :: b) = [a, b] := by
  induction a with
  | nil =>
      simp only [List.nil_append, pySplit]
      first
      | rw [if_pos rfl]
      | rw [if_pos trivial]
      rw [pySplit_no '|' b hb]
  | cons x r ih =>
      simp only [List.mem_cons, not_or] at ha
      simp only [List.cons_append, pySplit, List.append_eq]
      rw [if_neg (fun he => ha.1 he.symm), ih ha.2]

theorem pyStrip_bracket (x : Str) :
    pyStrip ('[' :: (x ++ [']'])) = '[' :: (x ++ [']']) := by
  rw [pyStrip]
  rw [List.dropWhile_cons, if_neg (by decide : ¬(isPySpace '[' = true))]
  rw [show ('[' :: (x ++ [']'])).reverse = ']' :: (x.reverse ++ ['[']) from by simp]
  rw [List.dropWhile_cons, if_neg (by decide : ¬(isPySpace ']' = true))]
  simp

theorem pyStrip_plansJson (ps : List Plan) :
    pyStrip (plansJson ps) = plansJson ps := by
  have h : plansJson ps = '[' :: (joinComma (ps.map planObj) ++ [']']) := by
    simp [plansJson]
  rw [h, pyStrip_bracket]

theorem plansJson_ne_nil (ps : List Plan) : plansJson ps ≠ [] := by
  simp [plansJson]

theorem parse_roundtrip_day (d : Day) (dd : DaySchedule) (hg : GoodDayB dd = true) :
    parseDayDataE d (combinedData dd) = .ok dd := by
  simp only [GoodDayB, Bool.and_eq_true, beq_iff_eq, Bool.not_eq_true',
    beq_eq_false_iff_ne, List.all_eq_true] at hg
  obtain ⟨⟨⟨⟨⟨⟨⟨⟨hsanst, hclst⟩, hnest⟩, hinfo⟩, hpipest⟩, hsang⟩, hclg⟩, hpipeg⟩,
    hplans⟩ := hg
  replace hpipest : '|' ∉ dd.study_time := by simpa using hpipest
  replace hpipeg : '|' ∉ dd.goals := by simpa using hpipeg
  have hplans' : ∀ p ∈ dd.plans, sanitize_input p.name = p.name ∧ p.name ≠ [] ∧
      sanitize_input p.details = p.details := by
    intro p hp
    obtain ⟨⟨h1, h2⟩, h3⟩ := hplans p hp
    exact ⟨h1, h2, h3⟩
  have hVP : validPlansOf dd.plans = dd.plans := validPlansOf_fixed dd.plans hplans'
  have hclean : ∀ p ∈ dd.plans, (∀ c ∈ p.name, isDangerous c = false) ∧
      (∀ c ∈ p.details, isDangerous c = false) := fun p hp =>
    ⟨sanitize_fixed_chars (hplans' p hp).1, sanitize_fixed_chars (hplans' p hp).2.2⟩
  have hcomb : combinedData dd =
      shellEsc dd.study_time ++ '|' :: shellEsc dd.goals ++ PLAN_SAVE_SEPARATOR ++
        shellEsc (plansJson dd.plans) := by
    rw [combinedData, hsanst, hsang, hVP]
  rw [hcomb]
  simp only [parseDayDataE]
  rw [splitCombined _ _ _ (shellEsc_not_mem (by decide) hpipest)
    (shellEsc_not_mem (by decide) hpipeg)]
  simp only [unesc_legacy, unesc_shellEsc]
  rw [pySplit_pair _ _ hpipest hpipeg]
  simp only [List.getD_cons_zero, List.getD_cons_succ, List.length_cons, List.length_nil]
  rw [hclst, hclg]
  rw [if_pos (by rw [Ne, shellEsc_eq_nil_iff]; exact plansJson_ne_nil _)]
  rw [pyStrip_plansJson]
  rw [if_neg (by simpa using plansJson_ne_nil dd.plans)]
  rw [jsonLoads_plansJson dd.plans hclean]
  rw [if_neg (by
    rw [not_or]
    exact ⟨hnest, by simp [hinfo]⟩)]
  rw [if_pos (by omega)]
  rw [pyOr_nil]
  show Except.ok (DaySchedule.mk dd.study_time dd.goals
    (validatePlans (List.map planVal dd.plans))) = Except.ok dd
  rw [validatePlans_planVal dd.plans hplans']

theorem plansJson_getLast (ps : List Plan) : (plansJson ps).getLast? = some ']' := by
  rw [show plansJson ps = ('[' :: joinComma (ps.map planObj)) ++ [']'] from rfl,
    List.getLast?_append_of_ne_nil _ (by simp)]
  rfl

theorem combinedData_esc (dd : DaySchedule) : Esc (combinedData dd) := by
  rw [combinedData]
  refine Esc.append (Esc.append (Esc.append (esc_shellEsc _) ?_) ?_) (esc_shellEsc _)
  · exact .chr (by decide) (by decide) (esc_shellEsc _)
  · exact esc_of_chars (by decide)

theorem combinedData_getLast (dd : DaySchedule) :
    (combinedData dd).getLast? = some ']' := by
  rw [combinedData]
  have hne : shellEsc (plansJson (validPlansOf dd.plans)) ≠ [] := by
    rw [Ne, shellEsc_eq_nil_iff]
    exact plansJson_ne_nil _
  rw [List.getLast?_append_of_ne_nil _ hne]
  exact shellEsc_getLast (by decide) (by decide) (plansJson_getLast _)

theorem savePreamble_shape (date L : Str) :
    savePreamble date ++ L =
      "# Schedule data saved on ".data ++ (date ++
        (('\n' :: ("days=(\n".data ++
          Day.all.flatMap (fun d => "  \"".data ++ Day.name d ++ ['"', '\n']) ++
          ")\n\n".data ++ "declare -A schedule\n".data)) ++ L)) := by
  simp [savePreamble]

theorem dateOk_no_s {date : Str} (h : dateOkB date = true) : 's' ∉ date := by
  intro hm
  rw [dateOkB, List.all_eq_true] at h
  exact absurd (h 's' hm) (by decide)

theorem skip_preamble (date : Str) (hs : 's' ∉ date) (d : Day) (L : Str) :
    findCapture (dayPrefix d) (savePreamble date ++ L) = findCapture (dayPrefix d) L := by
  rw [savePreamble_shape]
  cases d <;>
    rw [findCapture_skip_concrete _ _ _ (by decide) (by decide),
      findCapture_skip_headchar _ _ _ 's' (by decide) hs,
      findCapture_skip_concrete _ _ _ (by decide) (by decide)]

theorem dayPrefix_noOccur {d d' : Day} (hne : d ≠ d') :
    hasOccur (dayPrefix d) (dayPrefix d') = false := by
  cases d <;> cases d' <;> first | exact absurd rfl hne | decide

theorem dayPrefix_noBoundary (d d' : Day) :
    boundaryBad (dayPrefix d) (dayPrefix d') = false := by
  cases d <;> cases d' <;> decide

theorem skip_line {d d' : Day} (hne : d ≠ d') (dd : DaySchedule) (rest : Str) :
    findCapture (dayPrefix d) (encodeDayLine d' dd ++ rest) =
      findCapture (dayPrefix d) rest := by
  have hshape : encodeDayLine d' dd ++ rest =
      dayPrefix d' ++ (combinedData dd ++ '"' :: '\n' :: rest) := by
    simp [encodeDayLine]
  rw [hshape]
  rw [findCapture_skip_concrete _ _ _ (dayPrefix_noOccur hne) (dayPrefix_noBoundary d d')]
  rw [show dayPrefix d = dayKey d ++ ['=', '"'] from rfl]
  rw [findCapture_skip_escBody (dayKey d) (by cases d <;> decide) (by cases d <;> decide)
    (by cases d <;> decide) (combinedData_esc dd)
    (by rw [combinedData_getLast]; decide) rest]

theorem find_self_line (d : Day) (dd : DaySchedule) (rest : Str) :
    findCapture (dayPrefix d) (encodeDayLine d dd ++ rest) = some (combinedData dd) := by
  have hshape : encodeDayLine d dd ++ rest =
      dayPrefix d ++ (combinedData dd ++ '"' :: '\n' :: rest) := by
    simp [encodeDayLine]
  rw [hshape]
  exact findCapture_self _ (by cases d <;> decide) (combinedData_esc dd) rest

theorem find_day_line (date : Str) (w : WeekSchedule) (hdate : dateOkB date = true)
    (d : Day) :
    findCapture (dayPrefix d) (saveFileContent date w) = some (combinedData (w d)) := by
  have hs := dateOk_no_s hdate
  rw [saveFileContent, skip_preamble date hs d _]
  simp only [Day.all, List.flatMap_cons, List.flatMap_nil]
  cases d with
  | monday => rw [find_self_line]
  | tues => rw [skip_line (by decide), find_self_line]
  | wed => rw [skip_line (by decide), skip_line (by decide), find_self_line]
  | thur =>
      rw [skip_line (by decide), skip_line (by decide), skip_line (by decide),
        find_self_line]
  | fri =>
      rw [skip_line (by decide), skip_line (by decide), skip_line (by decide),
        skip_line (by decide), find_self_line]
  | sat =>
      rw [skip_line (by decide), skip_line (by decide), skip_line (by decide),
        skip_line (by decide), skip_line (by decide), find_self_line]
  | sun =>
      rw [skip_line (by decide), skip_line (by decide), skip_line (by decide),
        skip_line (by decide), skip_line (by decide), skip_line (by decide),
        find_self_line]

theorem dayParseOk_of_ok {content : Str} {d : Day} {ds : Str} {dd : DaySchedule}
    (hf : findCapture (dayPrefix d) content = some ds)
    (hp : parseDayDataE d ds = .ok dd) : dayParseOk content d = true := by
  simp only [dayParseOk]
  rw [hf]
  show (parseDayDataE d ds).isOk = true
  rw [hp]
  rfl

theorem load_eval (content : Str) (f : Day → Str) (g : WeekSchedule)
    (hf : ∀ d, findCapture (dayPrefix d) content = some (f d))
    (hg : ∀ d, parseDayDataE d (f d) = .ok (g d)) :
    load_schedule_data (some content) = g := by
  simp only [load_schedule_data]
  rw [if_pos ?hany, if_pos ?hok]
  case hany =>
    simp only [Day.all, List.any_cons, List.any_nil]
    rw [hf Day.monday]
    simp
  case hok =>
    simp only [Day.all, List.all_cons, List.all_nil]
    rw [dayParseOk_of_ok (hf Day.monday) (hg Day.monday),
      dayParseOk_of_ok (hf Day.tues) (hg Day.tues),
      dayParseOk_of_ok (hf Day.wed) (hg Day.wed),
      dayParseOk_of_ok (hf Day.thur) (hg Day.thur),
      dayParseOk_of_ok (hf Day.fri) (hg Day.fri),
      dayParseOk_of_ok (hf Day.sat) (hg Day.sat),
      dayParseOk_of_ok (hf Day.sun) (hg Day.sun)]
    rfl
  funext d
  simp only [hf d, hg d]

theorem load_saveFile (date : Str) (w : WeekSchedule) (hdate : dateOkB date = true)
    (hw : ∀ d, GoodDayB (w d) = true) :
    load_schedule_data (some (saveFileContent date w)) = w := by
  refine load_eval _ (fun d => combinedData (w d)) w ?_ ?_
  · exact find_day_line date w hdate
  · exact fun d => parse_roundtrip_day d (w d) (hw d)

/-- Claim C1 (corrected): decoding the file written by encode returns the
week unchanged when every day's fields are sanitize-stable AND
`clean_text`-stable, pipe-free, with a non-empty `study_time` that does not
contain `information`, and plans with sanitized fields and non-empty names;
the date has the digits-and-dashes shape `strftime("%Y-%m-%d")` produces.
The original claim's weaker hypotheses (sanitize-stability and non-empty
plan names only) do not suffice: see the counterexample. -/
theorem claim_C1 (date : Str) (w : WeekSchedule) (hdate : dateOkB date = true)
    (hw : ∀ d, GoodDayB (w d) = true) :
    load_schedule_data (some (saveFileContent date w)) = w :=
  load_saveFile date w hdate hw

theorem claim_C1_witness :
    dateOkB "2026-01-01".data = true ∧
    (∀ d, GoodDayB (initialize_default_schedule d) = true) ∧
    load_schedule_data (some (saveFileContent "2026-01-01".data
      initialize_default_schedule)) = initialize_default_schedule := by
  refine ⟨by decide, fun d => by cases d <;> decide, ?_⟩
  exact claim_C1 "2026-01-01".data initialize_default_schedule (by decide)
    (fun d => by cases d <;> decide)

set_option maxRecDepth 100000 in
/-- Claim C1, original form refuted: `wPipeEx` has sanitize-stable fields
and (vacuously) plans with non-empty sanitized names, yet decoding the
saved file loses everything after the pipe in Monday's goals. -/
theorem claim_C1_counterexample :
    (∀ d, sanitize_input ((wPipeEx d).study_time) = (wPipeEx d).study_time ∧
      sanitize_input ((wPipeEx d).goals) = (wPipeEx d).goals ∧
      ∀ p ∈ (wPipeEx d).plans, sanitize_input p.name = p.name ∧ p.name ≠ [] ∧
        sanitize_input p.details = p.details) ∧
    load_schedule_data (some (saveFileContent "2026-01-01".data wPipeEx)) ≠
      wPipeEx := by
  constructor
  · intro d
    cases d <;> exact ⟨by decide, by decide, by simp [wPipeEx]⟩
  · intro h
    have h2 : (load_schedule_data (some (saveFileContent "2026-01-01".data
        wPipeEx)) Day.monday).goals = 'a' :: [] := by decide
    rw [h] at h2
    exact absurd h2 (by decide)

theorem prefix_concrete_false (pat : Str) (c : Char) (a' b : Str)
    (h1 : hasOccur pat (c :: a') = false) (h2 : boundaryBad pat (c :: a') = false) :
    pat.isPrefixOf ((c :: a') ++ b) = false := by
  by_contra hcon
  have hpre0 : pat <+: ((c :: a') ++ b) := by
    rw [← List.isPrefixOf_iff_prefix]
    revert hcon
    cases pat.isPrefixOf ((c :: a') ++ b) <;> simp
  obtain ⟨t, ht⟩ := hpre0
  by_cases hlen : pat.length ≤ (c :: a').length
  · have hpre : pat <+: (c :: a') := by
      have h4 : pat = ((c :: a') ++ b).take pat.length :=
        List.prefix_iff_eq_take.mp ⟨t, ht⟩
      rw [List.take_append_of_le_length hlen] at h4
      rw [h4]
      exact List.take_prefix _ _
    rw [hasOccur_cons] at h1
    rcases Bool.or_eq_false_iff.mp h1 with ⟨ha2, -⟩
    exact absurd (List.isPrefixOf_iff_prefix.mpr hpre) (by simp [ha2])
  · push_neg at hlen
    have htake : pat.take (c :: a').length = c :: a' := by
      have h3 : ((c :: a') ++ b).take (c :: a').length = c :: a' := List.take_left _ _
      have h4 : ((c :: a') ++ b).take (c :: a').length =
          (pat ++ t).take (c :: a').length := by rw [ht]
      rw [h4, List.take_append_of_le_length (by omega)] at h3
      exact h3
    have hbb : boundaryBad pat (c :: a') = true := by
      simp only [boundaryBad, List.any_eq_true, List.mem_range, Bool.and_eq_true,
        decide_eq_true_eq]
      refine ⟨(c :: a').length, hlen, by simp, ?_⟩
      rw [htake, List.isSuffixOf_iff_suffix]
    rw [hbb] at h2
    exact absurd h2 (by simp)

theorem hasOccur_append_false (pat a b : Str) (ha : hasOccur pat a = false)
    (hbd : boundaryBad pat a = false) (hb : hasOccur pat b = false) :
    hasOccur pat (a ++ b) = false := by
  induction a with
  | nil => simpa using hb
  | cons c a' ih =>
      rw [List.cons_append, hasOccur_cons, Bool.or_eq_false_iff]
      refine ⟨?_, ?_⟩
      · rw [← List.cons_append]
        exact prefix_concrete_false pat c a' b ha hbd
      · apply ih
        · rw [hasOccur_cons] at ha
          exact (Bool.or_eq_false_iff.mp ha).2
        · rcases hb2 : boundaryBad pat a' with _ | _
          · rfl
          · rw [boundaryBad_cons_mono pat c a' hb2] at hbd
            exact absurd hbd (by simp)

theorem noLt_hasOccur {p x : Str} (h : '<' ∉ x) : hasOccur ('<' :: p) x = false := by
  induction x with
  | nil => rfl
  | cons c r ih =>
      simp only [List.mem_cons, not_or] at h
      rw [hasOccur_cons, Bool.or_eq_false_iff]
      refine ⟨?_, ih h.2⟩
      simp [List.isPrefixOf, beq_eq_false_iff_ne.mpr h.1]

theorem noLt_boundary {p x : Str} (h : '<' ∉ x) : boundaryBad ('<' :: p) x = false := by
  rw [Bool.eq_false_iff]
  intro hbb
  simp only [boundaryBad, List.any_eq_true, List.mem_range, Bool.and_eq_true,
    decide_eq_true_eq] at hbb
  obtain ⟨k, hk, hk0, hsuf⟩ := hbb
  rw [List.isSuffixOf_iff_suffix] at hsuf
  have hmem : '<' ∈ ('<' :: p).take k := by
    cases k with
    | zero => exact absurd rfl hk0
    | succ k' =>
        rw [List.take_succ_cons]
        exact List.mem_cons_self _ _
  exact h (hsuf.subset hmem)

theorem seg_ok_of_no_lt {s : Str} (h : '<' ∉ s) :
    hasOccur "<script>".data s = false ∧ boundaryBad "<script>".data s = false :=
  ⟨noLt_hasOccur (p := "script>".data) h, noLt_boundary (p := "script>".data) h⟩

theorem escapeHtml_no_lt (s : Str) : '<' ∉ escapeHtml s := by
  intro hm
  rw [escapeHtml] at hm
  simp only [List.mem_flatMap] at hm
  obtain ⟨c, -, hc⟩ := hm
  rw [htmlEscChar] at hc
  split_ifs at hc with hA hB hC hD hE
  · simp at hc
  · simp at hc
  · simp at hc
  · simp at hc
  · simp at hc
  · simp at hc
    exact hB hc.symm

theorem noOccur_flatten (pat : Str) (hpat : pat ≠ []) (segs : List Str)
    (h : ∀ s ∈ segs, hasOccur pat s = false ∧ boundaryBad pat s = false) :
    hasOccur pat segs.flatten = false := by
  induction segs with
  | nil =>
      cases pat with
      | nil => exact absurd rfl hpat
      | cons a p' => rfl
  | cons s rest ih =>
      rw [List.flatten_cons]
      obtain ⟨h1, h2⟩ := h s (by simp)
      exact hasOccur_append_false pat s rest.flatten h1 h2
        (ih (fun t ht => h t (List.mem_cons_of_mem s ht)))

theorem forall_mem_ite_nil {P : Str → Prop} {c : Prop} [Decidable c] {L : List Str}
    (h : ∀ s ∈ L, P s) : ∀ s ∈ (if c then L else []), P s := by
  split
  · exact h
  · intro s hs
    simp at hs

set_option maxRecDepth 100000 in
theorem dayCardSegs_ok (d : Day) (dd : DaySchedule) :
    ∀ s ∈ dayCardSegs d dd, hasOccur "<script>".data s = false ∧
      boundaryBad "<script>".data s = false := by
  rw [dayCardSegs]
  refine List.forall_mem_append.mpr ⟨List.forall_mem_append.mpr
    ⟨List.forall_mem_append.mpr ⟨List.forall_mem_append.mpr
      ⟨List.forall_mem_append.mpr ⟨?_, ?_⟩, ?_⟩, ?_⟩, ?_⟩, ?_⟩
  · intro s hs
    simp only [List.mem_cons, List.not_mem_nil, or_false] at hs
    rcases hs with rfl | rfl | rfl | rfl | rfl
    · exact ⟨by decide, by decide⟩
    · cases d <;> exact ⟨by decide, by decide⟩
    · exact ⟨by decide, by decide⟩
    · cases d <;> exact ⟨by decide, by decide⟩
    · exact ⟨by decide, by decide⟩
  · refine forall_mem_ite_nil ?_
    intro s hs
    simp only [List.mem_cons, List.not_mem_nil, or_false] at hs
    rcases hs with rfl | rfl | rfl | rfl | rfl
    · exact ⟨by decide, by decide⟩
    · cases d <;> exact ⟨by decide, by decide⟩
    · exact ⟨by decide, by decide⟩
    · exact seg_ok_of_no_lt (escapeHtml_no_lt _)
    · exact ⟨by decide, by decide⟩
  · refine forall_mem_ite_nil ?_
    intro s hs
    simp only [List.mem_cons, List.not_mem_nil, or_false] at hs
    rcases hs with rfl | rfl | rfl | rfl | rfl
    · exact ⟨by decide, by decide⟩
    · cases d <;> exact ⟨by decide, by decide⟩
    · exact ⟨by decide, by decide⟩
    · exact seg_ok_of_no_lt (escapeHtml_no_lt _)
    · exact ⟨by decide, by decide⟩
  · intro s hs
    obtain ⟨p, -, hsp⟩ := List.mem_flatMap.mp hs
    simp only [List.mem_cons, List.not_mem_nil, or_false] at hsp
    rcases hsp with rfl | rfl | rfl | rfl | rfl | rfl | rfl
    · exact ⟨by decide, by decide⟩
    · cases d <;> exact ⟨by decide, by decide⟩
    · exact ⟨by decide, by decide⟩
    · exact seg_ok_of_no_lt (escapeHtml_no_lt _)
    · exact ⟨by decide, by decide⟩
    · exact seg_ok_of_no_lt (escapeHtml_no_lt _)
    · exact ⟨by decide, by decide⟩
  · refine forall_mem_ite_nil ?_
    intro s hs
    simp only [List.mem_cons, List.not_mem_nil, or_false] at hs
    rcases hs with rfl
    exact ⟨by decide, by decide⟩
  · intro s hs
    simp only [List.mem_cons, List.not_mem_nil, or_false] at hs
    rcases hs with rfl
    exact ⟨by decide, by decide⟩

set_option maxRecDepth 1000000 in
theorem htmlSegments_ok (date : Str) (w : WeekSchedule) (notes : Str)
    (hdate : '<' ∉ date) :
    ∀ s ∈ htmlSegments date w notes, hasOccur "<script>".data s = false ∧
      boundaryBad "<script>".data s = false := by
  rw [htmlSegments]
  have hdseg := seg_ok_of_no_lt hdate
  refine List.forall_mem_append.mpr ⟨List.forall_mem_append.mpr ⟨List.forall_mem_append.mpr ⟨List.forall_mem_append.mpr ⟨List.forall_mem_append.mpr ⟨List.forall_mem_append.mpr ⟨List.forall_mem_append.mpr ⟨List.forall_mem_append.mpr ⟨List.forall_mem_append.mpr ⟨List.forall_mem_append.mpr ⟨List.forall_mem_append.mpr ⟨List.forall_mem_append.mpr ⟨List.forall_mem_append.mpr ⟨List.forall_mem_append.mpr ⟨List.forall_mem_append.mpr ⟨List.forall_mem_append.mpr ⟨List.forall_mem_append.mpr ⟨?c1, ?c2⟩, ?c3⟩, ?c4⟩, ?c5⟩, ?c6⟩, ?c7⟩, ?c8⟩, ?c9⟩, ?c10⟩, ?c11⟩, ?c12⟩, ?c13⟩, ?c14⟩, ?c15⟩, ?c16⟩, ?c17⟩, ?c18⟩
  case c1 =>
    intro s hs
    simp only [List.mem_cons, List.not_mem_nil, or_false] at hs
    rcases hs with rfl | rfl | rfl | rfl | rfl
    · exact ⟨by decide, by decide⟩
    · exact hdseg
    · exact ⟨by decide, by decide⟩
    · exact hdseg
    · exact ⟨by decide, by decide⟩
  case c2 =>
    intro s hs
    simp only [List.mem_cons, List.not_mem_nil, or_false] at hs
    rcases hs with rfl
    · exact ⟨by decide, by decide⟩
  case c3 =>
    exact dayCardSegs_ok _ _
  case c4 =>
    exact dayCardSegs_ok _ _
  case c5 =>
    exact dayCardSegs_ok _ _
  case c6 =>
    intro s hs
    simp only [List.mem_cons, List.not_mem_nil, or_false] at hs
    rcases hs with rfl | rfl
    · exact ⟨by decide, by decide⟩
    · exact ⟨by decide, by decide⟩
  case c7 =>
    intro s hs
    simp only [List.mem_cons, List.not_mem_nil, or_false] at hs
    rcases hs with rfl
    · exact ⟨by decide, by decide⟩
  case c8 =>
    exact dayCardSegs_ok _ _
  case c9 =>
    exact dayCardSegs_ok _ _
  case c10 =>
    exact dayCardSegs_ok _ _
  case c11 =>
    intro s hs
    simp only [List.mem_cons, List.not_mem_nil, or_false] at hs
    rcases hs with rfl | rfl
    · exact ⟨by decide, by decide⟩
    · exact ⟨by decide, by decide⟩
  case c12 =>
    intro s hs
    simp only [List.mem_cons, List.not_mem_nil, or_false] at hs
    rcases hs with rfl
    · exact ⟨by decide, by decide⟩
  case c13 =>
    exact dayCardSegs_ok _ _
  case c14 =>
    intro s hs
    simp only [List.mem_cons, List.not_mem_nil, or_false] at hs
    rcases hs with rfl | rfl
    · exact ⟨by decide, by decide⟩
    · exact ⟨by decide, by decide⟩
  case c15 =>
    intro s hs
    simp only [List.mem_cons, List.not_mem_nil, or_false] at hs
    rcases hs with rfl
    · exact ⟨by decide, by decide⟩
  case c16 =>
    intro s hs
    simp only [List.mem_cons, List.not_mem_nil, or_false] at hs
    rcases hs with rfl
    · exact ⟨by decide, by decide⟩
  case c17 =>
    refine forall_mem_ite_nil ?_
    intro s hs
    simp only [List.mem_cons, List.not_mem_nil, or_false] at hs
    rcases hs with rfl | rfl | rfl
    · exact ⟨by decide, by decide⟩
    · exact seg_ok_of_no_lt (escapeHtml_no_lt _)
    · exact ⟨by decide, by decide⟩
  case c18 =>
    intro s hs
    simp only [List.mem_cons, List.not_mem_nil, or_false] at hs
    rcases hs with rfl | rfl | rfl
    · exact ⟨by decide, by decide⟩
    · exact hdseg
    · exact ⟨by decide, by decide⟩

theorem hasOccur_nil_pat (y : Str) : hasOccur [] y = true := by
  cases y <;> rfl

theorem hasOccur_append_l {pat x : Str} (y : Str) (h : hasOccur pat x = true) :
    hasOccur pat (x ++ y) = true := by
  induction x with
  | nil =>
      have hp : pat = [] := by
        cases pat with
        | nil => rfl
        | cons c p => exact Bool.noConfusion h
      subst hp
      exact hasOccur_nil_pat y
  | cons c x' ih =>
      rw [List.cons_append, hasOccur_cons]
      rcases hpre : pat.isPrefixOf (c :: x') with _ | _
      · rw [hasOccur_cons, hpre, Bool.false_or] at h
        rw [ih h, Bool.or_true]
      · rw [List.isPrefixOf_iff_prefix] at hpre
        have hp2 : pat <+: (c :: (x' ++ y)) := by
          rw [← List.cons_append]
          exact hpre.trans (List.prefix_append _ _)
        rw [List.isPrefixOf_iff_prefix.mpr hp2, Bool.true_or]

theorem hasOccur_append_r {pat y : Str} (x : Str) (h : hasOccur pat y = true) :
    hasOccur pat (x ++ y) = true := by
  induction x with
  | nil => simpa using h
  | cons c x' ih => rw [List.cons_append, hasOccur_cons, ih, Bool.or_true]

theorem hasOccur_self (pat b : Str) : hasOccur pat (pat ++ b) = true := by
  cases pat with
  | nil => exact hasOccur_nil_pat b
  | cons c p =>
      rw [List.cons_append, hasOccur_cons, ← List.cons_append,
        isPrefixOf_append_self, Bool.true_or]

theorem hasOccur_flatten_of_mem {pat s : Str} {segs : List Str} (hm : s ∈ segs)
    (h : hasOccur pat s = true) : hasOccur pat segs.flatten = true := by
  induction segs with
  | nil => simp at hm
  | cons t rest ih =>
      rw [List.flatten_cons]
      rcases List.mem_cons.mp hm with rfl | hm2
      · exact hasOccur_append_l _ h
      · exact hasOccur_append_r _ (ih hm2)

theorem escGoals_mem (date : Str) (w : WeekSchedule) (notes : Str) (d : Day)
    (hne : (w d).goals ≠ []) :
    escapeHtml ((w d).goals) ∈ htmlSegments date w notes := by
  have hmem : escapeHtml ((w d).goals) ∈ dayCardSegs d (w d) := by
    rw [dayCardSegs]
    refine List.mem_append.mpr (Or.inl (List.mem_append.mpr (Or.inl
      (List.mem_append.mpr (Or.inl (List.mem_append.mpr (Or.inr ?_)))))))
    rw [if_pos hne]
    simp
  cases d <;> (rw [htmlSegments]; simp only [List.mem_append]; tauto)

/-- Claim C9: the HTML document built by `generate_html_email` (returned
verbatim when the external CSS inliner fails) never contains the substring
`<script>` — user text reaches it only through `html.escape`, which removes
every `<` — and a goal containing `<script>` appears in it in the escaped
form `&lt;script&gt;`. -/
theorem claim_C9 (date : Str) (w : WeekSchedule) (notes : Str) (hdate : '<' ∉ date) :
    hasOccur "<script>".data (generate_html_email date w notes) = false ∧
    ∀ d a b, (w d).goals = a ++ "<script>".data ++ b →
      hasOccur "&lt;script&gt;".data (generate_html_email date w notes) = true := by
  constructor
  · exact noOccur_flatten _ (by decide) _ (htmlSegments_ok date w notes hdate)
  · intro d a b hg
    have hne : (w d).goals ≠ [] := by
      rw [hg]
      simp
    have hocc : hasOccur "&lt;script&gt;".data (escapeHtml ((w d).goals)) = true := by
      have h1 : escapeHtml ((w d).goals) =
          escapeHtml a ++ (escapeHtml "<script>".data ++ escapeHtml b) := by
        rw [hg]
        simp [escapeHtml, List.flatMap_append]
      rw [h1, show escapeHtml "<script>".data = "&lt;script&gt;".data from rfl]
      exact hasOccur_append_r _ (hasOccur_self _ _)
    exact hasOccur_flatten_of_mem (escGoals_mem date w notes d hne) hocc

theorem claim_C9_witness :
    '<' ∉ "2026-01-01".data ∧
    (hasOccur "<script>".data (generate_html_email "2026-01-01".data
        initialize_default_schedule []) = false ∧
     ∀ d a b, (initialize_default_schedule d).goals = a ++ "<script>".data ++ b →
       hasOccur "&lt;script&gt;".data (generate_html_email "2026-01-01".data
         initialize_default_schedule []) = true) :=
  ⟨by decide, claim_C9 "2026-01-01".data initialize_default_schedule [] (by decide)⟩

end Smaker
